import Mathlib

/-!
# go-conway: the grid engine

A shallow embedding of `grid.go` and of the turn loop of `run.go` (package
`conway`), and the properties of their specification.

Modelling conventions.

* Go's `int` is the 64-bit two's complement integer (as on 64-bit platforms).
  Coordinates are `Int`s; a Go value lies between `MinInt64` and `MaxInt64`.
  The arithmetic of `neighbors` (`cell.X - 1`, `cell.X + 1`, `x++` and the same
  on `y`), which overflows at the ends of the range, is reduced by `wrap`.  The
  counters of `Show` run from 0 up to the largest coordinate, and the counter
  of `Run` up to `MaxTurns`; they are modelled without reduction.
* A call returns, panics or never returns: `Outcome`.  `neighbors` can write
  past its slice of 8 cells (a panic) and its outer loop can run forever; its
  loops are given 16 iterations each, and `neighborsFuel_stable` shows that more
  iterations never change the outcome.  `liveNeighbors`, `cellSurvives`,
  `withNeighbors` and `Next` pass these outcomes on.
* `Grid` is `map[Cell]struct{}`.  A map is modelled by the list of its keys, in
  the order in which a `range` loop happens to visit them.  Go leaves that order
  unspecified, so every statement below is made for an arbitrary list.  The
  functions do not require the list to be duplicate free; where a statement
  counts cells it assumes `List.Nodup`, which `Add` and `Remove` preserve.
  `Next` ranges over the intermediate map that `withNeighbors` returns;
  `Next_order_irrelevant` shows that the order of that loop does not matter
  either.
* A counting loop `for i := lo; i <= hi; i++` is `wrapLoop` in `neighbors`,
  where the counter wraps, and `forLoop lo hi body` in `Show`; both thread the
  variables the body assigns through as an explicit state.
* `Run` has effects and need not return.  Its effects are the trace of `Event`s
  it produces; its loop is `whileLoop`, which reports the state reached and
  whether the loop has been left within the given number of iterations.  Time
  and the spinner goroutine are only recorded as events, and the pause of a turn
  (the sleep, or the wait for input) is taken to end.
* `NextTurn` returns `grid.Next()` as a pair `(Grid, bool)`, and `Run` leaves
  its loop when that bool is false.  `grid.go` declares `Next` with the single
  result `Grid`, so the bool is not in the source; it is the parameter `flag`
  of `NextTurn` and `Run`, and nothing is assumed about it.
* A Go string is modelled by the characters it encodes; `range` over a string
  yields the byte offset of each character (`rangeString`).
-/

namespace Conway

/-! ## Data model -/

/-- Cell is an (x, y) coordinate. -/
structure Cell where
  X : Int
  Y : Int
deriving DecidableEq, Repr

/-- Grid is a 2-D grid of Cells: the keys of `map[Cell]struct{}`. -/
abbrev Grid := List Cell

/-- LiveCellRepr is the string used to represent a live Cell. -/
def LiveCellRepr : String := "■"

/-- DeadCellRepr is the string used to represent a dead Cell. -/
def DeadCellRepr : String := " "

/-! ## Control flow -/

/-- The iterations of `for i := i0; i <= hi; i++ { s = body i s }` that remain
when the counter is `i`, the state is `s` and at most `fuel` iterations are
allowed. -/
def loopFrom {σ : Type} (hi : Int) (body : Int → σ → σ) : Nat → Int → σ → σ
  | 0, _, s => s
  | fuel + 1, i, s => if i ≤ hi then loopFrom hi body fuel (i + 1) (body i s) else s

/-- The loop `for i := lo; i <= hi; i++ { s = body i s }`.  It is given exactly
the `hi + 1 - lo` iterations it performs, so it always leaves through its
condition (`loopFrom_fuel_add`). -/
def forLoop {σ : Type} (lo hi : Int) (body : Int → σ → σ) (s : σ) : σ :=
  loopFrom hi body (hi + 1 - lo).toNat lo s

/-! ## Operations of `grid.go` -/

/-- Add adds a Cell to a Grid: `g[cell] = struct{}{}`. -/
def Add (g : Grid) (cell : Cell) : Grid :=
  if cell ∈ g then g else g ++ [cell]

/-- AddMany adds one or more Cells to a Grid. -/
def AddMany (g : Grid) (cells : List Cell) : Grid :=
  cells.foldl Add g

/-- Remove removes a Cell from a Grid: `delete(g, cell)`. -/
def Remove (g : Grid) (cell : Cell) : Grid :=
  g.filter (fun c => decide (c ≠ cell))

/-! ## Go integers and outcomes -/

/-- The smallest value of Go's `int` (64 bits): -2^63. -/
def MinInt64 : Int := -9223372036854775808

/-- The largest value of Go's `int` (64 bits): 2^63 - 1. -/
def MaxInt64 : Int := 9223372036854775807

/-- The value that `int` arithmetic gives where the mathematical result is `n`:
`n` reduced modulo 2^64 into the range `MinInt64 .. MaxInt64`. -/
def wrap (n : Int) : Int :=
  (n + 9223372036854775808) % 18446744073709551616 - 9223372036854775808

/-- What a call does: it returns a value, it panics at run time (`crash`), or it
never returns (`hang`). -/
inductive Outcome (α : Type) where
  | ok (a : α)
  | crash
  | hang
deriving DecidableEq, Repr

/-- Sequencing: the second step runs on the value the first one returns. -/
def Outcome.bind {α β : Type} : Outcome α → (α → Outcome β) → Outcome β
  | Outcome.ok a, f => f a
  | Outcome.crash, _ => Outcome.crash
  | Outcome.hang, _ => Outcome.hang

/-- The iterations of `for i := i0; i <= hi; i++ { s = body i s }` over Go ints
that remain when the counter is `i` and the state is `s`; `i++` wraps.  A body
that panics or hangs ends the loop with that outcome, and the outcome is `hang`
when the loop is still running after `fuel` iterations. -/
def wrapLoop {σ : Type} (hi : Int) (body : Int → σ → Outcome σ) : Nat → Int → σ → Outcome σ
  | 0, i, s => if i ≤ hi then Outcome.hang else Outcome.ok s
  | fuel + 1, i, s =>
    if i ≤ hi then (body i s).bind (fun s1 => wrapLoop hi body fuel (wrap (i + 1)) s1)
    else Outcome.ok s

/-- The loop `for _, x := range xs { s = body s x }` with a body that can panic
or hang. -/
def rangeLoop {α σ : Type} (body : σ → α → Outcome σ) : σ → List α → Outcome σ
  | s, [] => Outcome.ok s
  | s, x :: xs => (body s x).bind (fun s1 => rangeLoop body s1 xs)

/-! ## The generation step of `grid.go` -/

/-- The body of the inner loop of `neighbors`: the state is the slice `cells`
and the index `i`; `continue` leaves both unchanged, and `cells[i] = c` panics
when `i` is not an index of `cells`. -/
def neighborsBody (cell : Cell) (y x : Int) (st : List Cell × Nat) :
    Outcome (List Cell × Nat) :=
  let c : Cell := ⟨x, y⟩
  if cell = c then Outcome.ok st
  else if st.2 < st.1.length then Outcome.ok (st.1.set st.2 c, st.2 + 1)
  else Outcome.crash

/-- The two nested loops of `neighbors`, started on `make([]Cell, 8)` and
`i := 0`, each loop with at most `fuel` iterations: `y` runs from `cell.Y - 1`
while `y <= cell.Y+1`, `x` from `cell.X - 1` while `x <= cell.X+1`, all in Go
ints.  Returns the final slice and the final index. -/
def neighborsFuel (fuel : Nat) (cell : Cell) : Outcome (List Cell × Nat) :=
  wrapLoop (wrap (cell.Y + 1))
    (fun y st =>
      wrapLoop (wrap (cell.X + 1)) (neighborsBody cell y) fuel (wrap (cell.X - 1)) st)
    fuel (wrap (cell.Y - 1)) (List.replicate 8 (⟨0, 0⟩ : Cell), 0)

/-- The two nested loops of `neighbors`.  Sixteen iterations per loop decide the
outcome (`neighborsFuel_stable`). -/
def neighborsLoop (cell : Cell) : Outcome (List Cell × Nat) :=
  neighborsFuel 16 cell

/-- The method `func (cell Cell) neighbors() []Cell`. -/
def neighbors (cell : Cell) : Outcome (List Cell) :=
  (neighborsLoop cell).bind (fun st => Outcome.ok st.1)

/-- The method `func (g Grid) liveNeighbors(cell Cell) int`. -/
def liveNeighbors (g : Grid) (cell : Cell) : Outcome Int :=
  (neighbors cell).bind (fun cells =>
    Outcome.ok (cells.foldl (fun n c => if c ∈ g then n + 1 else n) 0))

/-- The method `func (g Grid) cellSurvives(cell Cell) bool`. -/
def cellSurvives (g : Grid) (cell : Cell) : Outcome Bool :=
  (liveNeighbors g cell).bind (fun n =>
    Outcome.ok
      (match n with
      | 3 => true
      | 2 => decide (cell ∈ g)
      | _ => false))

/-- The loop of `withNeighbors` on its two maps: the state is the receiver `g`
and the local `grid`, which starts empty.  Returns both maps as they are when
the loop ends. -/
def withNeighborsRun (g : Grid) : Outcome (Grid × Grid) :=
  rangeLoop
    (fun st cell =>
      (neighbors cell).bind (fun cells => Outcome.ok (st.1, AddMany (Add st.2 cell) cells)))
    (g, []) g

/-- The method `func (g Grid) withNeighbors() Grid`. -/
def withNeighbors (g : Grid) : Outcome Grid :=
  (withNeighborsRun g).bind (fun st => Outcome.ok st.2)

/-- Next creates a new Grid by applying GoL rules. -/
def Next (g : Grid) : Outcome Grid :=
  (withNeighbors g).bind (fun candidates =>
    rangeLoop
      (fun grid cell =>
        (cellSurvives g cell).bind (fun alive =>
          Outcome.ok (if alive then Add grid cell else Remove grid cell)))
      [] candidates)

/-! ## Bounds and rendering of `grid.go` -/

/-- The function `func minimum(n0, n1 int) int`. -/
def minimum (n0 n1 : Int) : Int :=
  if n0 < n1 then n0 else n1

/-- The function `func maximum(n0, n1 int) int`. -/
def maximum (n0 n1 : Int) : Int :=
  if n0 > n1 then n0 else n1

/-- The method `func (g Grid) xyBounds() (min, max Cell)`: both named results
start as the zero Cell. -/
def xyBounds (g : Grid) : Cell × Cell :=
  g.foldl
    (fun b cell =>
      (⟨minimum cell.X b.1.X, minimum cell.Y b.1.Y⟩,
       ⟨maximum cell.X b.2.X, maximum cell.Y b.2.Y⟩))
    ((⟨0, 0⟩ : Cell), (⟨0, 0⟩ : Cell))

/-- The method `func (g Grid) maxXY() (max Cell)`: the named result starts as
the zero Cell. -/
def maxXY (g : Grid) : Cell :=
  g.foldl (fun mx cell => ⟨maximum mx.X cell.X, maximum mx.Y cell.Y⟩) (⟨0, 0⟩ : Cell)

/-- Show returns a human-readable string representation of a Grid. -/
def Show (g : Grid) : String :=
  let mx := maxXY g
  forLoop 0 mx.Y
    (fun y str =>
      forLoop 0 mx.X
        (fun x str =>
          if (⟨x, y⟩ : Cell) ∈ g then str ++ LiveCellRepr else str ++ DeadCellRepr)
        str ++ "\n")
    ""

/-! ## Constructors of `grid.go` -/

/-- FromSlice constructs a new Grid from a slice of slices of ints.
Each nonzero value will be converted into a Cell of its index ([y][x]).
The two `range` loops visit the pairs (index, element) of `List.enum`. -/
def FromSlice (rows : List (List Int)) : Grid :=
  rows.enum.foldl
    (fun grid yrow =>
      yrow.2.enum.foldl
        (fun grid xval => if xval.2 ≠ 0 then Add grid ⟨(xval.1 : Int), (yrow.1 : Int)⟩ else grid)
        grid)
    []

/-- The library call `strings.Split(s, sep)` for a separator of one character:
the substrings of `s` between the occurrences of `sep`, in order; one more
substring than there are separators. -/
def stringsSplit (sep : Char) : List Char → List (List Char)
  | [] => [[]]
  | c :: cs =>
    if c = sep then [] :: stringsSplit sep cs
    else
      match stringsSplit sep cs with
      | [] => [[c]]
      | r :: rs => (c :: r) :: rs

/-- The pairs that `for x, char := range row` visits on a string whose first
character starts at byte offset `i`: Go yields the byte offset at which each
character starts, and the character. -/
def rangeStringFrom : Nat → List Char → List (Nat × Char)
  | _, [] => []
  | i, c :: cs => (i, c) :: rangeStringFrom (i + c.utf8Size) cs

/-- The pairs (byte offset, character) that `for x, char := range row` visits. -/
def rangeString (row : List Char) : List (Nat × Char) :=
  rangeStringFrom 0 row

/-- FromString constructs a new Grid from a multiline string.
Each line represents a row, and each occurrence of the rune 'x' is
converted to a Cell in that position in the Grid.
The result is `none` if the guard indexes `srows[0]` out of range.  A Go string
is a byte sequence; it is modelled by the characters it encodes. -/
def FromString (s : String) : Option Grid :=
  let grid : Grid := []
  let srows := stringsSplit '\n' s.data
  let guard : Option Bool :=
    if srows.length = 0 then (srows[0]?).map (fun row0 => decide (row0.length = 0))
    else some false
  match guard with
  | none => none
  | some true => some grid
  | some false =>
    some ((stringsSplit '\n' s.data).enum.foldl
      (fun grid yrow =>
        (rangeString yrow.2).foldl
          (fun grid xchar =>
            if xchar.2 = 'x' then Add grid ⟨(xchar.1 : Int), (yrow.1 : Int)⟩ else grid)
          grid)
      grid)

/-! ## The turn loop of `run.go` -/

/-- RunConfig holds settings for running the simulation: the fields that `Run`
and `NextTurn` read.  The sink `OutFile` is the trace of events that a run
produces. -/
structure RunConfig where
  Delay : Nat
  MaxTurns : Int
  ClearScreen : Bool
  Interactive : Bool
  Spinner : Bool

/-- The actions of a turn that are visible from outside, in program order:
`goterm.Clear(); goterm.Flush()`, `fmt.Fprintln(opts.OutFile, rendering)`,
`go spinner.Spin(done)`, `util.WaitForInput(done)`, `time.Sleep(delay)`, the
call `grid.Next()` and the deferred `spinner.Done()`. -/
inductive Event where
  | clear
  | write (rendering : String)
  | spin
  | waitForInput
  | sleep (delay : Nat)
  | next (grid : Grid)
  | spinnerDone
deriving DecidableEq, Repr

/-- NextTurn runs a single turn of a Game of Life simulation; `out` is what
has been done so far.  `flag grid` is the bool that `grid.Next()` returns next
to the new grid. -/
def NextTurn (flag : Grid → Bool) (grid : Grid) (opts : RunConfig) (out : List Event) :
    Outcome ((Grid × Bool) × List Event) :=
  let out := if opts.ClearScreen then out ++ [Event.clear] else out
  let out := out ++ [Event.write (Show grid)]
  let out := if opts.Spinner then out ++ [Event.spin] else out
  let out := if opts.Interactive then out ++ [Event.waitForInput]
    else out ++ [Event.sleep opts.Delay]
  let out := out ++ [Event.next grid]
  (Next grid).bind (fun next =>
    let out := if opts.Spinner then out ++ [Event.spinnerDone] else out
    Outcome.ok ((next, flag grid), out))

/-- The variables of `Run`: `grid`, `ok`, the counter `i` of the bounded loop,
and the events so far. -/
structure RunState where
  grid : Grid
  ok : Bool
  i : Int
  out : List Event

/-- The state in which `Run` enters its loop: `ok := true`, `i := 0`. -/
def runInit (grid : Grid) : RunState :=
  ⟨grid, true, 0, []⟩

/-- The condition `i < opts.MaxTurns && ok` of the bounded loop. -/
def boundedCond (opts : RunConfig) (st : RunState) : Bool :=
  decide (st.i < opts.MaxTurns) && st.ok

/-- One iteration of the bounded loop: `grid, ok = NextTurn(grid, opts)`, then
`i++`. -/
def boundedBody (flag : Grid → Bool) (opts : RunConfig) (st : RunState) : Outcome RunState :=
  (NextTurn flag st.grid opts st.out).bind (fun r =>
    Outcome.ok ⟨r.1.1, r.1.2, st.i + 1, r.2⟩)

/-- The condition `ok` of the unbounded loop. -/
def unboundedCond (st : RunState) : Bool :=
  st.ok

/-- One iteration of the unbounded loop: `grid, ok = NextTurn(grid, opts)`. -/
def unboundedBody (flag : Grid → Bool) (opts : RunConfig) (st : RunState) :
    Outcome RunState :=
  (NextTurn flag st.grid opts st.out).bind (fun r =>
    Outcome.ok ⟨r.1.1, r.1.2, st.i, r.2⟩)

/-- The loop `for cond(s) { s = body(s) }` followed for at most `fuel`
iterations.  The result `(s, true)` says that the loop was left in state `s`;
`(s, false)` says that after `fuel` iterations the loop is in state `s` and its
condition still holds. -/
def whileLoop {σ : Type} (cond : σ → Bool) (body : σ → Outcome σ) :
    Nat → σ → Outcome (σ × Bool)
  | 0, s => Outcome.ok (s, !cond s)
  | fuel + 1, s =>
    if cond s then (body s).bind (fun s1 => whileLoop cond body fuel s1)
    else Outcome.ok (s, true)

/-- Run runs a Game of Life simulation.  The result is the trace of events of
the first `fuel` iterations of its loop, with `true` if `Run` has returned by
then and `false` if it is still in its loop. -/
def Run (flag : Grid → Bool) (fuel : Nat) (grid : Grid) (opts : RunConfig) :
    Outcome (List Event × Bool) :=
  if opts.MaxTurns > 0 then
    (whileLoop (boundedCond opts) (boundedBody flag opts) fuel (runInit grid)).bind
      (fun r => Outcome.ok (r.1.out, r.2))
  else
    (whileLoop unboundedCond (unboundedBody flag opts) fuel (runInit grid)).bind
      (fun r => Outcome.ok (r.1.out, r.2))

/-! ## Vocabulary of the specification -/

/-- Cell `d` is one of the 8 cells adjacent to `c` (Moore neighbourhood, `c`
itself excluded). -/
def Adjacent (c d : Cell) : Prop :=
  d ≠ c ∧ |d.X - c.X| ≤ 1 ∧ |d.Y - c.Y| ≤ 1

instance (c d : Cell) : Decidable (Adjacent c d) := by
  unfold Adjacent; infer_instance

/-- The live-neighbour count of `c` in `g`: the number of cells adjacent to `c`
that are in `g`. -/
def liveCount (g : Grid) (c : Cell) : Nat :=
  (g.toFinset.filter (fun d => Adjacent c d)).card

/-- The glyph of position (x, y) in a rendering of `g`: `LiveCellRepr` if (x, y)
is in `g` and `DeadCellRepr` otherwise. -/
def glyph (g : Grid) (x y : Int) : String :=
  if (⟨x, y⟩ : Cell) ∈ g then LiveCellRepr else DeadCellRepr

/-- A rectangular block of text with `h` rows: row `y` is the glyphs of columns
`0 .. w - 1` followed by a single newline. -/
def textBlock (g : Grid) (w h : Nat) : String :=
  String.join ((List.range h).map (fun (y : Nat) =>
    String.join ((List.range w).map (fun (x : Nat) => glyph g (x : Int) (y : Int))) ++ "\n"))

/-- The number of `LiveCellRepr` glyphs in a text; `LiveCellRepr` is the single
character U+25A0. -/
def liveGlyphs (s : String) : Nat :=
  s.data.count '■'

/-- The numbers `minX`, `maxX`, `minY`, `maxY` are the true component-wise
bounds of the live cells of `g`: each bounds its coordinate on every cell of `g`
and is attained by some cell of `g`. -/
def TrueBounds (g : Grid) (minX maxX minY maxY : Int) : Prop :=
  (∀ c ∈ g, minX ≤ c.X ∧ c.X ≤ maxX ∧ minY ≤ c.Y ∧ c.Y ≤ maxY) ∧
    (∃ c ∈ g, c.X = minX) ∧ (∃ c ∈ g, c.X = maxX) ∧
    (∃ c ∈ g, c.Y = minY) ∧ (∃ c ∈ g, c.Y = maxY)

/-- All rows of a matrix have the same length. -/
def Rectangular (rows : List (List Int)) : Prop :=
  ∀ r1 ∈ rows, ∀ r2 ∈ rows, r1.length = r2.length

/-- The entry `rows[y][x]` of a matrix exists and is not zero, that is
0 <= y < len(rows), 0 <= x < len(rows[y]) and rows[y][x] != 0. -/
def NonzeroAt (rows : List (List Int)) (x y : Int) : Prop :=
  0 ≤ y ∧ 0 ≤ x ∧ ∃ row, rows[y.toNat]? = some row ∧ ∃ v, row[x.toNat]? = some v ∧ v ≠ 0

/-- The events of one turn on grid `g`: the rendering of `g` is written, the
pause follows, then `Next` is invoked on `g`. -/
def turnEvents (opts : RunConfig) (g : Grid) : List Event :=
  (if opts.ClearScreen then [Event.clear] else []) ++ [Event.write (Show g)] ++
    (if opts.Spinner then [Event.spin] else []) ++
    [if opts.Interactive then Event.waitForInput else Event.sleep opts.Delay] ++
    [Event.next g] ++ (if opts.Spinner then [Event.spinnerDone] else [])

/-- The events of the first `k` turns of a run whose turn `i` is played on the
grid `gen i`. -/
def turnsTrace (opts : RunConfig) (gen : Nat → Grid) (k : Nat) : List Event :=
  ((List.range k).map (fun i => turnEvents opts (gen i))).flatten

/-- The renderings written to the sink, in order. -/
def renderings (out : List Event) : List String :=
  out.filterMap (fun e => match e with
    | Event.write r => some r
    | _ => none)

/-- The grids on which `Next` was invoked, in order. -/
def nextCalls (out : List Event) : List Grid :=
  out.filterMap (fun e => match e with
    | Event.next g => some g
    | _ => none)

/-- The rendering writes and the `Next` invocations of a trace, in the order in
which they happened. -/
def writesAndNexts (out : List Event) : List Event :=
  out.filter (fun e => match e with
    | Event.write _ => true
    | Event.next _ => true
    | _ => false)

/-- The cell `c` shifted by the offset (dx, dy). -/
def translateCell (dx dy : Int) (c : Cell) : Cell :=
  ⟨c.X + dx, c.Y + dy⟩

/-- The grid obtained by shifting every cell of `g` by the offset (dx, dy). -/
def translate (dx dy : Int) (g : Grid) : Grid :=
  g.map (translateCell dx dy)

/-- Two grids hold the same set of cells (they may list them in different
orders). -/
def SameCells (g h : Grid) : Prop :=
  ∀ c : Cell, c ∈ g ↔ c ∈ h


/-- The number `n` is a value of Go's `int`. -/
def IsInt64 (n : Int) : Prop :=
  -9223372036854775808 ≤ n ∧ n ≤ 9223372036854775807

/-- Both coordinates of the cell are values of Go's `int`. -/
def ValidCell (c : Cell) : Prop :=
  IsInt64 c.X ∧ IsInt64 c.Y

/-- The coordinate `n` is one at which `n - 1`, `n + 1` and the counter that
passes `n + 1` do not overflow: MinInt64 < n < MaxInt64 - 1. -/
def SafeCoord (n : Int) : Prop :=
  -9223372036854775808 < n ∧ n < 9223372036854775806

/-- Both coordinates of the cell are safe: `neighbors` does not overflow on
it. -/
def SafeCell (c : Cell) : Prop :=
  SafeCoord c.X ∧ SafeCoord c.Y

/-- Both coordinates of the cell lie one step inside the safe range,
MinInt64 + 1 < n < MaxInt64 - 2, so that the cell and its 8 neighbours are
safe. -/
def InnerCell (c : Cell) : Prop :=
  (-9223372036854775807 < c.X ∧ c.X < 9223372036854775805) ∧
    (-9223372036854775807 < c.Y ∧ c.Y < 9223372036854775805)

instance (n : Int) : Decidable (IsInt64 n) := by
  unfold IsInt64; infer_instance

instance (c : Cell) : Decidable (ValidCell c) := by
  unfold ValidCell; infer_instance

instance (n : Int) : Decidable (SafeCoord n) := by
  unfold SafeCoord; infer_instance

instance (c : Cell) : Decidable (SafeCell c) := by
  unfold SafeCell; infer_instance

instance (c : Cell) : Decidable (InnerCell c) := by
  unfold InnerCell; infer_instance

/-- The 8 cells (x+dx, y+dy) with dx, dy in {-1, 0, 1} and (dx, dy) != (0, 0)
around `c`, in row-major order (y ascending, then x ascending). -/
def mooreCells (c : Cell) : List Cell :=
  [⟨c.X - 1, c.Y - 1⟩, ⟨c.X, c.Y - 1⟩, ⟨c.X + 1, c.Y - 1⟩, ⟨c.X - 1, c.Y⟩, ⟨c.X + 1, c.Y⟩,
    ⟨c.X - 1, c.Y + 1⟩, ⟨c.X, c.Y + 1⟩, ⟨c.X + 1, c.Y + 1⟩]

/-- The slice that `make([]Cell, 8)` returns: 8 zero cells. -/
def zeroCells : List Cell :=
  List.replicate 8 (⟨0, 0⟩ : Cell)

/-- The Game-of-Life rule for cell `c` on grid `g`: exactly 3 live neighbours,
or exactly 2 live neighbours and `c` itself in `g`. -/
def AliveNext (g : Grid) (c : Cell) : Prop :=
  liveCount g c = 3 ∨ (liveCount g c = 2 ∧ c ∈ g)

instance (g : Grid) (c : Cell) : Decidable (AliveNext g c) := by
  unfold AliveNext; infer_instance

/-! ## Loops -/

theorem loopFrom_fuel_add {σ : Type} (hi : Int) (body : Int → σ → σ) (k : Nat) :
    ∀ (fuel : Nat) (i : Int) (s : σ), (hi + 1 - i).toNat ≤ fuel →
      loopFrom hi body (fuel + k) i s = loopFrom hi body fuel i s := by
  intro fuel
  induction fuel with
  | zero =>
    intro i s h
    have hgt : ¬ i ≤ hi := by omega
    cases k with
    | zero => rfl
    | succ k => simp [loopFrom, hgt]
  | succ n ih =>
    intro i s h
    rw [Nat.add_right_comm]
    simp only [loopFrom]
    split
    · exact ih (i + 1) (body i s) (by omega)
    · rfl

/-! ## Map updates -/

theorem mem_Add (g : Grid) (c d : Cell) : d ∈ Add g c ↔ d ∈ g ∨ d = c := by
  unfold Add
  split
  · constructor
    · intro h; exact Or.inl h
    · rintro (h | rfl)
      · exact h
      · assumption
  · simp

theorem mem_AddMany (cells : List Cell) :
    ∀ (g : Grid) (d : Cell), d ∈ AddMany g cells ↔ d ∈ g ∨ d ∈ cells := by
  induction cells with
  | nil => intro g d; simp [AddMany]
  | cons c cs ih =>
    intro g d
    have h := ih (Add g c) d
    simp only [AddMany, List.foldl_cons] at h ⊢
    rw [h, mem_Add, List.mem_cons, or_assoc]

theorem mem_Remove (g : Grid) (c d : Cell) : d ∈ Remove g c ↔ d ∈ g ∧ d ≠ c := by
  simp [Remove]

theorem nodup_Add (g : Grid) (c : Cell) (h : g.Nodup) : (Add g c).Nodup := by
  unfold Add
  split
  · exact h
  · rw [List.nodup_append]
    refine ⟨h, List.nodup_singleton c, ?_⟩
    intro a ha hb
    rw [List.mem_singleton] at hb
    subst hb
    contradiction

theorem nodup_Remove (g : Grid) (c : Cell) (h : g.Nodup) : (Remove g c).Nodup :=
  h.filter _

theorem nodup_AddMany (cells : List Cell) :
    ∀ g : Grid, g.Nodup → (AddMany g cells).Nodup := by
  induction cells with
  | nil => intro g h; exact h
  | cons c cs ih =>
    intro g h
    exact ih (Add g c) (nodup_Add g c h)

/-! ## Go integers, outcomes and wrapping loops -/

theorem wrap_eq_self (n : Int) (h : IsInt64 n) : wrap n = n := by
  unfold IsInt64 at h
  unfold wrap
  omega

theorem wrap_isInt64 (n : Int) : IsInt64 (wrap n) := by
  unfold IsInt64 wrap
  omega

theorem Outcome.bind_ok_right {α : Type} (r : Outcome α) : r.bind Outcome.ok = r := by
  cases r <;> rfl

theorem Outcome.bind_eq_ok {α β : Type} (r : Outcome α) (f : α → Outcome β) (b : β) :
    r.bind f = Outcome.ok b ↔ ∃ a, r = Outcome.ok a ∧ f a = Outcome.ok b := by
  cases r with
  | ok a => simp [Outcome.bind]
  | crash => simp [Outcome.bind]
  | hang => simp [Outcome.bind]

theorem wrapLoop_exit {σ : Type} (hi : Int) (body : Int → σ → Outcome σ) (fuel : Nat) (i : Int)
    (s : σ) (h : ¬ i ≤ hi) : wrapLoop hi body fuel i s = Outcome.ok s := by
  cases fuel <;> simp [wrapLoop, h]

theorem wrapLoop_three {σ : Type} (a : Int) (ha : SafeCoord a) (body : Int → σ → Outcome σ)
    (fuel : Nat) (hf : 3 ≤ fuel) (s : σ) :
    wrapLoop (wrap (a + 1)) body fuel (wrap (a - 1)) s =
      (body (a - 1) s).bind (fun s1 => (body a s1).bind (fun s2 => body (a + 1) s2)) := by
  obtain ⟨n, rfl⟩ : ∃ n, fuel = n + 3 := ⟨fuel - 3, by omega⟩
  unfold SafeCoord at ha
  have h1 : wrap (a + 1) = a + 1 := wrap_eq_self _ (by unfold IsInt64; omega)
  have h0 : wrap (a - 1) = a - 1 := wrap_eq_self _ (by unfold IsInt64; omega)
  have h2 : wrap (a - 1 + 1) = a := by
    rw [wrap_eq_self _ (by unfold IsInt64; omega)]; omega
  have h3 : wrap (a + 1 + 1) = a + 2 := by
    rw [wrap_eq_self _ (by unfold IsInt64; omega)]; omega
  have c1 : a - 1 ≤ a + 1 := by omega
  have c2 : a ≤ a + 1 := by omega
  have c3 : a + 1 ≤ a + 1 := le_refl _
  have c4 : ¬ a + 2 ≤ a + 1 := by omega
  rw [h1, h0]
  simp only [wrapLoop, c1, c2, c3, if_true, h1, h2, h3, wrapLoop_exit _ _ _ _ _ c4,
    Outcome.bind_ok_right]

theorem wrapLoop_not_ok {σ : Type} (body : Int → σ → Outcome σ) :
    ∀ (fuel : Nat) (i : Int) (s s1 : σ), IsInt64 i →
      wrapLoop 9223372036854775807 body fuel i s ≠ Outcome.ok s1 := by
  intro fuel
  induction fuel with
  | zero =>
    intro i s s1 hi
    have hle : i ≤ 9223372036854775807 := hi.2
    simp [wrapLoop, hle]
  | succ n ih =>
    intro i s s1 hi
    have hle : i ≤ 9223372036854775807 := hi.2
    rw [wrapLoop, if_pos hle]
    intro h
    obtain ⟨s2, _, h2⟩ := (Outcome.bind_eq_ok _ _ _).mp h
    exact ih (wrap (i + 1)) s2 s1 (wrap_isInt64 _) h2

theorem wrapLoop_hang {σ : Type} (body : Int → σ → Outcome σ)
    (hbody : ∀ (j : Int) (s : σ), body j s = Outcome.ok s) :
    ∀ (fuel : Nat) (i : Int) (s : σ), IsInt64 i →
      wrapLoop 9223372036854775807 body fuel i s = Outcome.hang := by
  intro fuel
  induction fuel with
  | zero =>
    intro i s hi
    have hle : i ≤ 9223372036854775807 := hi.2
    simp [wrapLoop, hle]
  | succ n ih =>
    intro i s hi
    have hle : i ≤ 9223372036854775807 := hi.2
    rw [wrapLoop, if_pos hle, hbody]
    exact ih (wrap (i + 1)) s (wrap_isInt64 _)

theorem wrapLoop_mono {σ : Type} (hi : Int) (body body1 : Int → σ → Outcome σ)
    (hb : ∀ (j : Int) (s : σ), body j s = Outcome.hang ∨ body j s = body1 j s) (k : Nat) :
    ∀ (fuel : Nat) (i : Int) (s : σ),
      wrapLoop hi body fuel i s = Outcome.hang ∨
        wrapLoop hi body fuel i s = wrapLoop hi body1 (fuel + k) i s := by
  intro fuel
  induction fuel with
  | zero =>
    intro i s
    by_cases h : i ≤ hi
    · left
      simp [wrapLoop, h]
    · right
      rw [wrapLoop_exit _ _ _ _ _ h, wrapLoop_exit _ _ _ _ _ h]
  | succ n ih =>
    intro i s
    by_cases h : i ≤ hi
    · rw [Nat.add_right_comm]
      simp only [wrapLoop, h, if_true]
      rcases hb i s with hh | hh
      · left
        rw [hh]
        rfl
      · rw [hh]
        cases body1 i s with
        | ok s1 => exact ih (wrap (i + 1)) s1
        | crash => right; rfl
        | hang => left; rfl
    · right
      rw [wrapLoop_exit _ _ _ _ _ h, wrapLoop_exit _ _ _ _ _ h]

theorem wrapLoop_invariant {σ : Type} (hi : Int) (body : Int → σ → Outcome σ) (P : σ → Prop)
    (hbody : ∀ (j : Int) (s s1 : σ), IsInt64 j → P s → body j s = Outcome.ok s1 → P s1) :
    ∀ (fuel : Nat) (i : Int) (s s1 : σ), IsInt64 i → P s →
      wrapLoop hi body fuel i s = Outcome.ok s1 → P s1 := by
  intro fuel
  induction fuel with
  | zero =>
    intro i s s1 _ hP h
    by_cases hc : i ≤ hi
    · simp [wrapLoop, hc] at h
    · simp only [wrapLoop, hc, if_false, Outcome.ok.injEq] at h
      exact h ▸ hP
  | succ n ih =>
    intro i s s1 hv hP h
    by_cases hc : i ≤ hi
    · rw [wrapLoop, if_pos hc] at h
      obtain ⟨s2, hb, h2⟩ := (Outcome.bind_eq_ok _ _ _).mp h
      exact ih (wrap (i + 1)) s2 s1 (wrap_isInt64 _) (hbody i s s2 hv hP hb) h2
    · simp only [wrapLoop, hc, if_false, Outcome.ok.injEq] at h
      exact h ▸ hP

/-! ## neighbors -/

theorem neighborsFuel_safe (c : Cell) (h : SafeCell c) (fuel : Nat) (hf : 3 ≤ fuel) :
    neighborsFuel fuel c = Outcome.ok (mooreCells c, 8) := by
  obtain ⟨x, y⟩ := c
  obtain ⟨hx, hy⟩ := h
  simp only at hx hy
  have n1 : ¬ x = x - 1 := by omega
  have n2 : ¬ x = x + 1 := by omega
  have n3 : ¬ y = y - 1 := by omega
  have n4 : ¬ y = y + 1 := by omega
  unfold neighborsFuel
  simp only [wrapLoop_three _ hy _ _ hf, wrapLoop_three _ hx _ _ hf]
  simp [neighborsBody, Outcome.bind, n1, n2, n3, n4, mooreCells]

theorem row_exit (c : Cell) (hx : c.X = -9223372036854775808 ∨ c.X = 9223372036854775807)
    (y : Int) (fuel : Nat) (st : List Cell × Nat) :
    wrapLoop (wrap (c.X + 1)) (neighborsBody c y) fuel (wrap (c.X - 1)) st = Outcome.ok st := by
  apply wrapLoop_exit
  unfold wrap
  omega

theorem neighborsFuel_edgeY (c : Cell)
    (hy : c.Y = -9223372036854775808 ∨ c.Y = 9223372036854775807) (fuel : Nat) :
    neighborsFuel fuel c = Outcome.ok (zeroCells, 0) := by
  unfold neighborsFuel
  apply wrapLoop_exit
  unfold wrap
  omega

theorem neighborsFuel_edgeX (c : Cell)
    (hx : c.X = -9223372036854775808 ∨ c.X = 9223372036854775807) (hy : SafeCoord c.Y)
    (fuel : Nat) (hf : 3 ≤ fuel) :
    neighborsFuel fuel c = Outcome.ok (zeroCells, 0) := by
  unfold neighborsFuel
  rw [wrapLoop_three _ hy _ _ hf]
  simp only [row_exit c hx, Outcome.bind]
  rfl

theorem neighborsFuel_cornerHang (c : Cell)
    (hx : c.X = -9223372036854775808 ∨ c.X = 9223372036854775807)
    (hy : c.Y = 9223372036854775806) (fuel : Nat) :
    neighborsFuel fuel c = Outcome.hang := by
  unfold neighborsFuel
  have hhi : wrap (c.Y + 1) = 9223372036854775807 := by
    unfold wrap
    omega
  rw [hhi]
  exact wrapLoop_hang _ (fun y st => row_exit c hx y fuel st) fuel _ _ (wrap_isInt64 _)

theorem neighborsFuel_lateY_not_ok (c : Cell) (hy : c.Y = 9223372036854775806) (fuel : Nat)
    (st : List Cell × Nat) : neighborsFuel fuel c ≠ Outcome.ok st := by
  unfold neighborsFuel
  have hhi : wrap (c.Y + 1) = 9223372036854775807 := by
    unfold wrap
    omega
  rw [hhi]
  exact wrapLoop_not_ok _ fuel _ _ st (wrap_isInt64 _)

theorem neighborsFuel_lateX_not_ok (c : Cell) (hx : c.X = 9223372036854775806)
    (hy : SafeCoord c.Y) (fuel : Nat) (hf : 3 ≤ fuel) (st : List Cell × Nat) :
    neighborsFuel fuel c ≠ Outcome.ok st := by
  unfold neighborsFuel
  rw [wrapLoop_three _ hy _ _ hf]
  have hhi : wrap (c.X + 1) = 9223372036854775807 := by
    unfold wrap
    omega
  rw [hhi]
  intro h
  obtain ⟨s1, h1, _⟩ := (Outcome.bind_eq_ok _ _ _).mp h
  exact wrapLoop_not_ok _ fuel _ _ s1 (wrap_isInt64 _) h1

theorem coord_cases (n : Int) (h : IsInt64 n) :
    (n = -9223372036854775808 ∨ n = 9223372036854775807) ∨ n = 9223372036854775806 ∨
      SafeCoord n := by
  unfold IsInt64 at h
  unfold SafeCoord
  omega

theorem neighborsLoop_ok (c : Cell) (hv : ValidCell c) (st : List Cell × Nat)
    (h : neighborsLoop c = Outcome.ok st) :
    st = (zeroCells, 0) ∨ (SafeCell c ∧ st = (mooreCells c, 8)) := by
  unfold neighborsLoop at h
  rcases coord_cases c.Y hv.2 with hy | hy | hy
  · rw [neighborsFuel_edgeY c hy] at h
    left
    exact (Outcome.ok.inj h).symm
  · exact absurd h (neighborsFuel_lateY_not_ok c hy 16 st)
  · rcases coord_cases c.X hv.1 with hx | hx | hx
    · rw [neighborsFuel_edgeX c hx hy 16 (by decide)] at h
      left
      exact (Outcome.ok.inj h).symm
    · exact absurd h (neighborsFuel_lateX_not_ok c hx hy 16 (by decide) st)
    · rw [neighborsFuel_safe c ⟨hx, hy⟩ 16 (by decide)] at h
      right
      exact ⟨⟨hx, hy⟩, (Outcome.ok.inj h).symm⟩

theorem neighbors_ok (c : Cell) (hv : ValidCell c) (cells : List Cell)
    (h : neighbors c = Outcome.ok cells) :
    cells = zeroCells ∨ (SafeCell c ∧ cells = mooreCells c) := by
  unfold neighbors at h
  obtain ⟨st, hst, hcells⟩ := (Outcome.bind_eq_ok _ _ _).mp h
  have hc : st.1 = cells := Outcome.ok.inj hcells
  rcases neighborsLoop_ok c hv st hst with rfl | ⟨hs, rfl⟩
  · left
    exact hc.symm
  · right
    exact ⟨hs, hc.symm⟩

theorem neighbors_safe (c : Cell) (h : SafeCell c) : neighbors c = Outcome.ok (mooreCells c) := by
  unfold neighbors neighborsLoop
  rw [neighborsFuel_safe c h 16 (by decide)]
  rfl

theorem neighborsBody_valid (c : Cell) (y x : Int) (st st1 : List Cell × Nat) (hy : IsInt64 y)
    (hx : IsInt64 x) (hst : ∀ d ∈ st.1, ValidCell d) (h : neighborsBody c y x st = Outcome.ok st1) :
    ∀ d ∈ st1.1, ValidCell d := by
  unfold neighborsBody at h
  simp only at h
  split at h
  · rw [← Outcome.ok.inj h]
    exact hst
  · split at h
    · rw [← Outcome.ok.inj h]
      intro d hd
      rcases List.mem_or_eq_of_mem_set hd with hd | rfl
      · exact hst d hd
      · exact ⟨hx, hy⟩
    · cases h

theorem neighbors_valid (c : Cell) (cells : List Cell) (h : neighbors c = Outcome.ok cells) :
    ∀ d ∈ cells, ValidCell d := by
  unfold neighbors neighborsLoop at h
  obtain ⟨st, hst, hcells⟩ := (Outcome.bind_eq_ok _ _ _).mp h
  rw [← Outcome.ok.inj hcells]
  unfold neighborsFuel at hst
  refine wrapLoop_invariant _ _ (fun s => ∀ d ∈ s.1, ValidCell d) ?_ 16 _ _ st (wrap_isInt64 _) ?_
    hst
  · intro y s s1 hy hs hrow
    exact wrapLoop_invariant _ _ (fun s => ∀ d ∈ s.1, ValidCell d)
      (fun x t t1 hx ht hb => neighborsBody_valid c y x t t1 hy hx ht hb) 16 _ s s1
      (wrap_isInt64 _) hs hrow
  · intro d hd
    rw [List.eq_of_mem_replicate hd]
    decide

theorem row_crash (c : Cell) (y : Int) (hy : y ≠ c.Y) :
    ∀ (m fuel : Nat) (x : Int) (st : List Cell × Nat), IsInt64 x → st.1.length = 8 →
      st.2 + m = 8 → m < fuel →
      wrapLoop 9223372036854775807 (neighborsBody c y) fuel x st = Outcome.crash := by
  intro m
  induction m with
  | zero =>
    intro fuel x st hx hlen hi hf
    obtain ⟨f, rfl⟩ : ∃ f, fuel = f + 1 := ⟨fuel - 1, by omega⟩
    have hle : x ≤ 9223372036854775807 := hx.2
    have hne : ¬ c = ⟨x, y⟩ := fun e => hy (by rw [e])
    have hfull : ¬ st.2 < st.1.length := by omega
    simp only [wrapLoop, hle, if_true, neighborsBody, hne, if_false, hfull, Outcome.bind]
  | succ m ih =>
    intro fuel x st hx hlen hi hf
    obtain ⟨f, rfl⟩ : ∃ f, fuel = f + 1 := ⟨fuel - 1, by omega⟩
    have hle : x ≤ 9223372036854775807 := hx.2
    have hne : ¬ c = ⟨x, y⟩ := fun e => hy (by rw [e])
    have hroom : st.2 < st.1.length := by omega
    simp only [wrapLoop, hle, if_true, neighborsBody, hne, if_false, hroom, Outcome.bind]
    exact ih f (wrap (x + 1)) _ (wrap_isInt64 _) (by simp [hlen]) (by simp; omega) (by omega)

theorem neighborsFuel_lateX_crash (c : Cell) (hx : c.X = 9223372036854775806)
    (hy : SafeCoord c.Y) : neighborsFuel 16 c = Outcome.crash := by
  unfold neighborsFuel
  rw [wrapLoop_three _ hy _ _ (by decide)]
  have hhi : wrap (c.X + 1) = 9223372036854775807 := by
    unfold wrap
    omega
  have hrow : wrapLoop (wrap (c.X + 1)) (neighborsBody c (c.Y - 1)) 16 (wrap (c.X - 1))
      (List.replicate 8 (⟨0, 0⟩ : Cell), 0) = Outcome.crash := by
    rw [hhi]
    exact row_crash c (c.Y - 1) (by omega) 8 16 _ _ (wrap_isInt64 _) (by simp) (by simp)
      (by decide)
  rw [hrow]
  rfl

theorem neighborsFuel_lateY_crash (c : Cell) (hx : SafeCoord c.X)
    (hy : c.Y = 9223372036854775806) (fuel : Nat) (hf : 4 ≤ fuel) :
    neighborsFuel fuel c = Outcome.crash := by
  obtain ⟨n, rfl⟩ : ∃ n, fuel = n + 4 := ⟨fuel - 4, by omega⟩
  obtain ⟨x, y⟩ := c
  simp only at hx hy
  subst hy
  have n1 : ¬ x = x - 1 := by omega
  have n2 : ¬ x = x + 1 := by omega
  unfold neighborsFuel
  simp only [wrapLoop_three _ hx _ _ (by omega : 3 ≤ n + 4)]
  simp [wrapLoop, wrap, neighborsBody, Outcome.bind, n1, n2]

set_option maxRecDepth 100000 in
theorem neighborsFuel_lateXY_crash :
    neighborsFuel 16 ⟨9223372036854775806, 9223372036854775806⟩ = Outcome.crash := by
  decide

theorem neighborsFuel_hang_iff (c : Cell) (hv : ValidCell c)
    (h : neighborsFuel 16 c = Outcome.hang) :
    (c.X = -9223372036854775808 ∨ c.X = 9223372036854775807) ∧ c.Y = 9223372036854775806 := by
  rcases coord_cases c.Y hv.2 with hy | hy | hy
  · rw [neighborsFuel_edgeY c hy] at h
    cases h
  · rcases coord_cases c.X hv.1 with hx | hx | hx
    · exact ⟨hx, hy⟩
    · obtain ⟨x, y⟩ := c
      simp only at hx hy
      subst hx
      subst hy
      rw [neighborsFuel_lateXY_crash] at h
      cases h
    · rw [neighborsFuel_lateY_crash c hx hy 16 (by decide)] at h
      cases h
  · rcases coord_cases c.X hv.1 with hx | hx | hx
    · rw [neighborsFuel_edgeX c hx hy 16 (by decide)] at h
      cases h
    · rw [neighborsFuel_lateX_crash c hx hy] at h
      cases h
    · rw [neighborsFuel_safe c ⟨hx, hy⟩ 16 (by decide)] at h
      cases h

theorem neighborsFuel_stable (c : Cell) (hv : ValidCell c) (fuel : Nat) (hf : 16 ≤ fuel) :
    neighborsFuel fuel c = neighborsFuel 16 c := by
  obtain ⟨k, rfl⟩ : ∃ k, fuel = 16 + k := ⟨fuel - 16, by omega⟩
  have hm : neighborsFuel 16 c = Outcome.hang ∨
      neighborsFuel 16 c = neighborsFuel (16 + k) c := by
    unfold neighborsFuel
    exact wrapLoop_mono _ _ _
      (fun y st => wrapLoop_mono _ _ _ (fun _ _ => Or.inr rfl) k 16 _ st) k 16 _ _
  rcases hm with hh | he
  · obtain ⟨hx, hy⟩ := neighborsFuel_hang_iff c hv hh
    rw [neighborsFuel_cornerHang c hx hy, neighborsFuel_cornerHang c hx hy]
  · exact he.symm

theorem mem_mooreCells_iff (c d : Cell) : d ∈ mooreCells c ↔ Adjacent c d := by
  unfold mooreCells
  cases c with
  | mk x y =>
    cases d with
    | mk u v =>
      simp only [List.mem_cons, Cell.mk.injEq, List.mem_singleton, List.not_mem_nil, or_false,
        Adjacent, ne_eq, abs_le]
      constructor
      · intro h; omega
      · intro h; omega

theorem mooreCells_nodup (c : Cell) : (mooreCells c).Nodup := by
  unfold mooreCells
  simp only [List.nodup_cons, List.mem_cons, Cell.mk.injEq, List.mem_singleton,
    List.not_mem_nil, List.nodup_nil, and_true, not_false_eq_true, true_and, or_false]
  omega

set_option maxRecDepth 100000 in
/-- C6 (what fails): `neighbors` computes `cell.X+1` and `cell.Y+1` in Go ints.
For the cell (MaxInt64, 0) the bound `cell.X+1` wraps to MinInt64, the inner
loop never runs, and the result is the 8 zero cells of `make([]Cell, 8)`, which
are not pairwise distinct and are not the cells around (MaxInt64, 0); for the
cell (MaxInt64 - 1, 0) the inner loop never leaves and the ninth write panics. -/
theorem neighbors_at_int_limits :
    neighbors ⟨9223372036854775807, 0⟩ = Outcome.ok zeroCells ∧ ¬ zeroCells.Nodup ∧
      (⟨9223372036854775806, 0⟩ : Cell) ∉ zeroCells ∧
      neighbors ⟨9223372036854775806, 0⟩ = Outcome.crash := by
  decide

/-- C6 (amended): for every cell c = (x, y) with MinInt64 < x < MaxInt64 - 1 and
MinInt64 < y < MaxInt64 - 1, negative coordinates included, `neighbors c`
returns the list of the 8 cells (x+dx, y+dy) with dx, dy in {-1, 0, 1} and
(dx, dy) != (0, 0), in row-major order (y ascending, then x ascending): it has
length 8, its entries are pairwise distinct, none is c, and the loop index ends
at 8.  For (0, 2) it is the list of `TestCell_neighbors`. -/
theorem neighbors_spec (c : Cell) (h : SafeCell c) :
    ∃ cells : List Cell,
      neighbors c = Outcome.ok cells ∧
      neighborsLoop c = Outcome.ok (cells, 8) ∧
      cells =
        [⟨c.X - 1, c.Y - 1⟩, ⟨c.X, c.Y - 1⟩, ⟨c.X + 1, c.Y - 1⟩, ⟨c.X - 1, c.Y⟩,
          ⟨c.X + 1, c.Y⟩, ⟨c.X - 1, c.Y + 1⟩, ⟨c.X, c.Y + 1⟩, ⟨c.X + 1, c.Y + 1⟩] ∧
      cells.length = 8 ∧
      cells.Nodup ∧
      c ∉ cells ∧
      (∀ d : Cell, d ∈ cells ↔
        ∃ dx dy : Int, (dx = -1 ∨ dx = 0 ∨ dx = 1) ∧ (dy = -1 ∨ dy = 0 ∨ dy = 1) ∧
          (dx, dy) ≠ (0, 0) ∧ d = ⟨c.X + dx, c.Y + dy⟩) ∧
      cells.Pairwise (fun a b => a.Y < b.Y ∨ (a.Y = b.Y ∧ a.X < b.X)) ∧
      neighbors ⟨0, 2⟩ =
        Outcome.ok [⟨-1, 1⟩, ⟨0, 1⟩, ⟨1, 1⟩, ⟨-1, 2⟩, ⟨1, 2⟩, ⟨-1, 3⟩, ⟨0, 3⟩, ⟨1, 3⟩] := by
  refine ⟨mooreCells c, neighbors_safe c h, neighborsFuel_safe c h 16 (by decide), rfl, rfl,
    mooreCells_nodup c, ?_, ?_, ?_, ?_⟩
  · rw [mem_mooreCells_iff]
    intro hc
    exact hc.1 rfl
  · intro d
    rw [mem_mooreCells_iff]
    cases c with
    | mk x y =>
      cases d with
      | mk u v =>
        simp only [Adjacent, ne_eq, Cell.mk.injEq, abs_le, Prod.mk.injEq]
        constructor
        · intro hd
          exact ⟨u - x, v - y, by omega, by omega, by omega, by omega, by omega⟩
        · rintro ⟨dx, dy, hx, hy, hne, rfl, rfl⟩
          omega
  · unfold mooreCells
    simp only [List.pairwise_cons, List.mem_cons, List.mem_singleton, List.not_mem_nil,
      forall_eq_or_imp, forall_eq, IsEmpty.forall_iff, implies_true, List.Pairwise.nil,
      and_true, true_and]
    omega
  · rw [neighbors_safe ⟨0, 2⟩ (by decide)]
    decide

theorem neighbors_spec_witness :
    SafeCell ⟨-1, -1⟩ ∧
      ∃ cells : List Cell, neighbors ⟨-1, -1⟩ = Outcome.ok cells ∧ cells.length = 8 ∧
        (⟨-2, -2⟩ : Cell) ∈ cells := by
  obtain ⟨cells, h1, _, h3, h4, _⟩ := neighbors_spec ⟨-1, -1⟩ (by decide)
  refine ⟨by decide, cells, h1, h4, ?_⟩
  rw [h3]
  decide

/-! ## Counting live neighbours -/

theorem adjacent_symm {c d : Cell} (h : Adjacent c d) : Adjacent d c := by
  obtain ⟨h1, h2, h3⟩ := h
  refine ⟨fun e => h1 e.symm, ?_, ?_⟩
  · rw [abs_sub_comm]; exact h2
  · rw [abs_sub_comm]; exact h3

theorem foldl_count (g : Grid) (l : List Cell) :
    ∀ n : Int, l.foldl (fun n c => if c ∈ g then n + 1 else n) n =
      n + ((l.filter (fun c => decide (c ∈ g))).length : Int) := by
  induction l with
  | nil => intro n; simp
  | cons a l ih =>
    intro n
    rw [List.foldl_cons, ih]
    by_cases h : a ∈ g
    · simp only [h, if_true, List.filter_cons, decide_True, List.length_cons, Nat.cast_add,
        Nat.cast_one]
      ring
    · simp [h, List.filter_cons]

theorem mooreCells_count (g : Grid) (c : Cell) :
    ((mooreCells c).filter (fun d => decide (d ∈ g))).length = liveCount g c := by
  unfold liveCount
  have hnd : ((mooreCells c).filter (fun d => decide (d ∈ g))).Nodup :=
    (mooreCells_nodup c).filter _
  rw [← List.toFinset_card_of_nodup hnd]
  congr 1
  ext d
  simp only [List.mem_toFinset, List.mem_filter, decide_eq_true_eq, Finset.mem_filter,
    mem_mooreCells_iff]
  exact and_comm

theorem liveNeighbors_safe (g : Grid) (c : Cell) (h : SafeCell c) :
    liveNeighbors g c = Outcome.ok (liveCount g c : Int) := by
  unfold liveNeighbors
  rw [neighbors_safe c h]
  simp only [Outcome.bind]
  rw [foldl_count, zero_add, mooreCells_count]

theorem cellSurvives_safe (g : Grid) (c : Cell) (h : SafeCell c) :
    cellSurvives g c = Outcome.ok (decide (AliveNext g c)) := by
  unfold cellSurvives
  rw [liveNeighbors_safe g c h]
  simp only [Outcome.bind]
  congr 1
  unfold AliveNext
  split
  · rename_i e
    have h3 : liveCount g c = 3 := by exact_mod_cast e
    simp [h3]
  · rename_i e
    have h2 : liveCount g c = 2 := by exact_mod_cast e
    simp [h2]
  · rename_i e3 e2
    have n3 : ¬ liveCount g c = 3 := fun e => e3 (by rw [e]; rfl)
    have n2 : ¬ liveCount g c = 2 := fun e => e2 (by rw [e]; rfl)
    simp [n3, n2]

theorem liveCount_pos_adjacent (g : Grid) (c : Cell) (h : 0 < liveCount g c) :
    ∃ d ∈ g, Adjacent d c := by
  unfold liveCount at h
  obtain ⟨d, hd⟩ := Finset.card_pos.mp h
  rw [Finset.mem_filter, List.mem_toFinset] at hd
  exact ⟨d, hd.1, adjacent_symm hd.2⟩

theorem aliveNext_adjacent (g : Grid) (c : Cell) (h : AliveNext g c) : ∃ d ∈ g, Adjacent d c := by
  apply liveCount_pos_adjacent
  unfold AliveNext at h
  rcases h with h | h
  · omega
  · omega

theorem zeroCells_count (g : Grid) :
    zeroCells.foldl (fun (n : Int) c => if c ∈ g then n + 1 else n) 0 = 0 ∨
      zeroCells.foldl (fun (n : Int) c => if c ∈ g then n + 1 else n) 0 = 8 := by
  by_cases h : (⟨0, 0⟩ : Cell) ∈ g
  · right
    simp [zeroCells, List.replicate, h]
  · left
    simp [zeroCells, List.replicate, h]

theorem cellSurvives_true (g : Grid) (c : Cell) (hv : ValidCell c)
    (h : cellSurvives g c = Outcome.ok true) : SafeCell c ∧ AliveNext g c := by
  have h0 := h
  unfold cellSurvives liveNeighbors at h
  obtain ⟨n, hn, hm⟩ := (Outcome.bind_eq_ok _ _ _).mp h
  obtain ⟨cells, hcells, hcount⟩ := (Outcome.bind_eq_ok _ _ _).mp hn
  have hcnt := Outcome.ok.inj hcount
  have hmatch := Outcome.ok.inj hm
  rcases neighbors_ok c hv cells hcells with rfl | ⟨hs, rfl⟩
  · exfalso
    rcases zeroCells_count g with h0 | h8
    · rw [h0] at hcnt
      rw [← hcnt] at hmatch
      simp at hmatch
    · rw [h8] at hcnt
      rw [← hcnt] at hmatch
      simp at hmatch
  · refine ⟨hs, ?_⟩
    have hsafe := cellSurvives_safe g c hs
    rw [h0] at hsafe
    exact of_decide_eq_true (Outcome.ok.inj hsafe).symm

/-! ## withNeighbors -/

theorem rangeLoop_pure {α σ : Type} (body : σ → α → Outcome σ) (f : σ → α → σ) (l : List α)
    (h : ∀ (s : σ) (x : α), x ∈ l → body s x = Outcome.ok (f s x)) :
    ∀ s : σ, rangeLoop body s l = Outcome.ok (l.foldl f s) := by
  induction l with
  | nil => intro s; rfl
  | cons a l ih =>
    intro s
    rw [rangeLoop, h s a (List.mem_cons_self _ _)]
    exact ih (fun s x hx => h s x (List.mem_cons_of_mem _ hx)) (f s a)

theorem rangeLoop_withNeighbors_ok (l : List Cell) :
    ∀ (r acc : Grid) (st : Grid × Grid),
      rangeLoop
          (fun (st : Grid × Grid) cell =>
            (neighbors cell).bind (fun cells =>
              Outcome.ok (st.1, AddMany (Add st.2 cell) cells)))
          (r, acc) l = Outcome.ok st →
        st.1 = r ∧ (acc.Nodup → st.2.Nodup) ∧
          ∀ d : Cell, d ∈ st.2 ↔
            d ∈ acc ∨ d ∈ l ∨ ∃ c ∈ l, ∃ cells, neighbors c = Outcome.ok cells ∧ d ∈ cells := by
  induction l with
  | nil =>
    intro r acc st h
    simp only [rangeLoop, Outcome.ok.injEq] at h
    subst h
    simp
  | cons a l ih =>
    intro r acc st h
    rw [rangeLoop] at h
    obtain ⟨s1, hs1, hrest⟩ := (Outcome.bind_eq_ok _ _ _).mp h
    obtain ⟨cells, hcells, hst⟩ := (Outcome.bind_eq_ok _ _ _).mp hs1
    have e1 := Outcome.ok.inj hst
    simp only at e1
    subst e1
    obtain ⟨h1, h2, h3⟩ := ih r (AddMany (Add acc a) cells) st hrest
    refine ⟨h1, fun hnd => h2 (nodup_AddMany _ _ (nodup_Add acc a hnd)), ?_⟩
    intro d
    rw [h3, mem_AddMany, mem_Add]
    simp only [List.mem_cons, exists_eq_or_imp]
    constructor
    · rintro (((hd | hd) | hd) | hd | hd)
      · exact Or.inl hd
      · exact Or.inr (Or.inl (Or.inl hd))
      · exact Or.inr (Or.inr (Or.inl ⟨cells, hcells, hd⟩))
      · exact Or.inr (Or.inl (Or.inr hd))
      · exact Or.inr (Or.inr (Or.inr hd))
    · rintro (hd | (hd | hd) | ⟨cs, hcs, hd⟩ | hd)
      · exact Or.inl (Or.inl (Or.inl hd))
      · exact Or.inl (Or.inl (Or.inr hd))
      · exact Or.inr (Or.inl hd)
      · rw [hcells] at hcs
        rw [← Outcome.ok.inj hcs] at hd
        exact Or.inl (Or.inr hd)
      · exact Or.inr (Or.inr hd)

theorem rangeLoop_withNeighbors_safe (l : List Cell) (hl : ∀ c ∈ l, SafeCell c) :
    ∀ r acc : Grid, ∃ w : Grid,
      rangeLoop
          (fun (st : Grid × Grid) cell =>
            (neighbors cell).bind (fun cells =>
              Outcome.ok (st.1, AddMany (Add st.2 cell) cells)))
          (r, acc) l = Outcome.ok (r, w) := by
  induction l with
  | nil => intro r acc; exact ⟨acc, rfl⟩
  | cons a l ih =>
    intro r acc
    obtain ⟨w, hw⟩ := ih (fun c hc => hl c (List.mem_cons_of_mem _ hc)) r
      (AddMany (Add acc a) (mooreCells a))
    refine ⟨w, ?_⟩
    rw [rangeLoop, neighbors_safe a (hl a (List.mem_cons_self _ _))]
    exact hw

theorem withNeighbors_ok_mem (g w : Grid) (h : withNeighbors g = Outcome.ok w) :
    w.Nodup ∧ ∀ d ∈ w, d ∈ g ∨ ∃ c ∈ g, ∃ cells, neighbors c = Outcome.ok cells ∧ d ∈ cells := by
  unfold withNeighbors withNeighborsRun at h
  obtain ⟨st, hst, hw⟩ := (Outcome.bind_eq_ok _ _ _).mp h
  have e := Outcome.ok.inj hw
  subst e
  obtain ⟨_, h2, h3⟩ := rangeLoop_withNeighbors_ok g g [] st hst
  refine ⟨h2 List.nodup_nil, ?_⟩
  intro d hd
  rcases (h3 d).mp hd with hd | hd | hd
  · cases hd
  · exact Or.inl hd
  · exact Or.inr hd

theorem withNeighbors_safe (g : Grid) (hg : ∀ c ∈ g, SafeCell c) :
    ∃ w : Grid, withNeighborsRun g = Outcome.ok (g, w) ∧ withNeighbors g = Outcome.ok w ∧
      w.Nodup ∧ ∀ d : Cell, d ∈ w ↔ d ∈ g ∨ ∃ c ∈ g, Adjacent c d := by
  obtain ⟨w, hw⟩ := rangeLoop_withNeighbors_safe g hg g []
  have hrun : withNeighborsRun g = Outcome.ok (g, w) := hw
  obtain ⟨_, h2, h3⟩ := rangeLoop_withNeighbors_ok g g [] (g, w) hw
  refine ⟨w, hrun, ?_, h2 List.nodup_nil, ?_⟩
  · unfold withNeighbors
    rw [hrun]
    rfl
  · intro d
    rw [h3]
    simp only [List.not_mem_nil, false_or]
    constructor
    · rintro (hd | ⟨c, hc, cells, hcells, hd⟩)
      · exact Or.inl hd
      · rw [neighbors_safe c (hg c hc)] at hcells
        rw [← Outcome.ok.inj hcells, mem_mooreCells_iff] at hd
        exact Or.inr ⟨c, hc, hd⟩
    · rintro (hd | ⟨c, hc, hd⟩)
      · exact Or.inl hd
      · exact Or.inr ⟨c, hc, mooreCells c, neighbors_safe c (hg c hc),
          (mem_mooreCells_iff c d).mpr hd⟩

theorem innerCell_safe (c : Cell) (h : InnerCell c) : SafeCell c := by
  unfold InnerCell at h
  unfold SafeCell SafeCoord
  omega

theorem adjacent_inner_safe (c d : Cell) (hc : InnerCell c) (h : Adjacent c d) : SafeCell d := by
  unfold InnerCell at hc
  obtain ⟨_, hx, hy⟩ := h
  rw [abs_le] at hx hy
  unfold SafeCell SafeCoord
  omega

/-! ## Next -/

theorem mem_foldl_Add_Remove (f : Cell → Bool) (l : List Cell) :
    ∀ (acc : Grid) (c : Cell),
      c ∈ l.foldl (fun grid cell => if f cell then Add grid cell else Remove grid cell) acc ↔
        (c ∈ l ∧ f c = true) ∨ (c ∉ l ∧ c ∈ acc) := by
  induction l with
  | nil => intro acc c; simp
  | cons a l ih =>
    intro acc c
    rw [List.foldl_cons, ih]
    by_cases hc : c ∈ l
    · simp [hc]
    · by_cases hfa : f a = true
      · simp only [hc, false_and, not_false_eq_true, hfa, if_true, mem_Add, true_and, false_or,
          List.mem_cons, or_false]
        by_cases hca : c = a
        · subst hca; simp [hfa]
        · simp [hca]
      · simp only [hc, false_and, not_false_eq_true, hfa, mem_Remove, true_and, false_or,
          List.mem_cons, or_false, Bool.false_eq_true, if_false]
        by_cases hca : c = a
        · subst hca; simp [hfa]
        · simp [hca]

theorem liveCount_congr {g h : Grid} (e : SameCells g h) (c : Cell) :
    liveCount g c = liveCount h c := by
  unfold liveCount
  have : g.toFinset = h.toFinset := by
    ext d
    simp only [List.mem_toFinset]
    exact e d
  rw [this]

theorem SameCells.refl (g : Grid) : SameCells g g :=
  fun _ => Iff.rfl

theorem SameCells.trans {g h k : Grid} (a : SameCells g h) (b : SameCells h k) :
    SameCells g k :=
  fun c => (a c).trans (b c)

theorem SameCells.symm {g h : Grid} (a : SameCells g h) : SameCells h g :=
  fun c => (a c).symm

theorem rangeLoop_Next_ok (g : Grid) (l : List Cell) :
    ∀ acc out : Grid,
      rangeLoop
          (fun grid cell =>
            (cellSurvives g cell).bind (fun alive =>
              Outcome.ok (if alive then Add grid cell else Remove grid cell)))
          acc l = Outcome.ok out →
        ∀ c ∈ out, c ∈ acc ∨ (c ∈ l ∧ cellSurvives g c = Outcome.ok true) := by
  induction l with
  | nil =>
    intro acc out h c hc
    simp only [rangeLoop, Outcome.ok.injEq] at h
    subst h
    exact Or.inl hc
  | cons a l ih =>
    intro acc out h c hc
    rw [rangeLoop] at h
    obtain ⟨s1, hs1, hrest⟩ := (Outcome.bind_eq_ok _ _ _).mp h
    obtain ⟨alive, halive, hst⟩ := (Outcome.bind_eq_ok _ _ _).mp hs1
    have e1 := Outcome.ok.inj hst
    subst e1
    rcases ih _ out hrest c hc with h1 | ⟨h1, h2⟩
    · cases alive with
      | true =>
        simp only [if_true, mem_Add] at h1
        rcases h1 with h1 | rfl
        · exact Or.inl h1
        · exact Or.inr ⟨List.mem_cons_self _ _, halive⟩
      | false =>
        simp only [Bool.false_eq_true, if_false, mem_Remove] at h1
        exact Or.inl h1.1
    · exact Or.inr ⟨List.mem_cons_of_mem _ h1, h2⟩

theorem Next_ok_mem (g out : Grid) (h : Next g = Outcome.ok out) (c : Cell) (hc : c ∈ out) :
    cellSurvives g c = Outcome.ok true ∧
      (c ∈ g ∨ ∃ d ∈ g, ∃ cells, neighbors d = Outcome.ok cells ∧ c ∈ cells) := by
  unfold Next at h
  obtain ⟨w, hw, hloop⟩ := (Outcome.bind_eq_ok _ _ _).mp h
  rcases rangeLoop_Next_ok g w [] out hloop c hc with h1 | ⟨h1, h2⟩
  · cases h1
  · exact ⟨h2, (withNeighbors_ok_mem g w hw).2 c h1⟩

theorem Next_inner (g : Grid) (hg : ∀ c ∈ g, InnerCell c) :
    ∃ out : Grid, Next g = Outcome.ok out ∧ out.Nodup ∧ ∀ c : Cell, c ∈ out ↔ AliveNext g c := by
  obtain ⟨w, _, hw, _, hmem⟩ := withNeighbors_safe g (fun c hc => innerCell_safe c (hg c hc))
  have hsafe : ∀ c ∈ w, SafeCell c := by
    intro c hc
    rcases (hmem c).mp hc with h1 | ⟨d, hd, hadj⟩
    · exact innerCell_safe c (hg c h1)
    · exact adjacent_inner_safe d c (hg d hd) hadj
  have hloop := rangeLoop_pure
    (fun grid cell =>
      (cellSurvives g cell).bind (fun alive =>
        Outcome.ok (if alive then Add grid cell else Remove grid cell)))
    (fun grid cell => if decide (AliveNext g cell) then Add grid cell else Remove grid cell) w
    (fun s x hx => by simp only [cellSurvives_safe g x (hsafe x hx), Outcome.bind]) []
  refine ⟨w.foldl
    (fun grid cell => if decide (AliveNext g cell) then Add grid cell else Remove grid cell) [],
    ?_, ?_, ?_⟩
  · unfold Next
    rw [hw]
    exact hloop
  · have hnd : ∀ (l : List Cell) (acc : Grid), acc.Nodup →
        (l.foldl (fun grid cell =>
          if decide (AliveNext g cell) then Add grid cell else Remove grid cell) acc).Nodup := by
      intro l
      induction l with
      | nil => intro acc h; exact h
      | cons a l ih =>
        intro acc h
        rw [List.foldl_cons]
        apply ih
        split
        · exact nodup_Add acc a h
        · exact nodup_Remove acc a h
    exact hnd w [] List.nodup_nil
  · intro c
    rw [mem_foldl_Add_Remove (fun c => decide (AliveNext g c))]
    simp only [decide_eq_true_eq, List.not_mem_nil, and_false, or_false]
    constructor
    · exact fun h => h.2
    · intro h
      obtain ⟨d, hd, hadj⟩ := aliveNext_adjacent g c h
      exact ⟨(hmem c).mpr (Or.inr ⟨d, hd, hadj⟩), h⟩

theorem aliveNext_congr {g h : Grid} (e : SameCells g h) (c : Cell) :
    AliveNext g c ↔ AliveNext h c := by
  unfold AliveNext
  rw [liveCount_congr e c, e c]

theorem liveCount_eq_zero (g : Grid) (c : Cell) (h : ∀ d ∈ g, ¬ Adjacent d c) :
    liveCount g c = 0 := by
  by_contra hne
  obtain ⟨d, hd, hadj⟩ := liveCount_pos_adjacent g c (Nat.pos_of_ne_zero hne)
  exact h d hd hadj

theorem Next_order_irrelevant (g : Grid) (hg : ∀ c ∈ g, InnerCell c) (w l : Grid)
    (hw : withNeighbors g = Outcome.ok w) (hl : SameCells l w) :
    ∃ out : Grid,
      rangeLoop
          (fun grid cell =>
            (cellSurvives g cell).bind (fun alive =>
              Outcome.ok (if alive then Add grid cell else Remove grid cell)))
          [] l = Outcome.ok out ∧
        ∀ c : Cell, c ∈ out ↔ AliveNext g c := by
  obtain ⟨w1, _, hw1, _, hmem⟩ := withNeighbors_safe g (fun c hc => innerCell_safe c (hg c hc))
  rw [hw] at hw1
  have e : w = w1 := Outcome.ok.inj hw1
  subst e
  have hsafe : ∀ c ∈ l, SafeCell c := by
    intro c hc
    rcases (hmem c).mp ((hl c).mp hc) with h1 | ⟨d, hd, hadj⟩
    · exact innerCell_safe c (hg c h1)
    · exact adjacent_inner_safe d c (hg d hd) hadj
  have hloop := rangeLoop_pure
    (fun grid cell =>
      (cellSurvives g cell).bind (fun alive =>
        Outcome.ok (if alive then Add grid cell else Remove grid cell)))
    (fun grid cell => if decide (AliveNext g cell) then Add grid cell else Remove grid cell) l
    (fun s x hx => by simp only [cellSurvives_safe g x (hsafe x hx), Outcome.bind]) []
  refine ⟨_, hloop, ?_⟩
  intro c
  rw [mem_foldl_Add_Remove (fun c => decide (AliveNext g c))]
  simp only [decide_eq_true_eq, List.not_mem_nil, and_false, or_false]
  constructor
  · exact fun h => h.2
  · intro h
    obtain ⟨d, hd, hadj⟩ := aliveNext_adjacent g c h
    exact ⟨(hl c).mpr ((hmem c).mpr (Or.inr ⟨d, hd, hadj⟩)), h⟩

theorem Next_SameCells {g h : Grid} (e : SameCells g h) (hh : ∀ c ∈ h, InnerCell c)
    (outh : Grid) (hN : Next h = Outcome.ok outh) :
    ∃ out : Grid, Next g = Outcome.ok out ∧ SameCells out outh := by
  obtain ⟨out, ho, _, hmem⟩ := Next_inner g (fun c hc => hh c ((e c).mp hc))
  obtain ⟨out1, ho1, _, hmem1⟩ := Next_inner h hh
  rw [hN] at ho1
  have e1 : outh = out1 := Outcome.ok.inj ho1
  subst e1
  exact ⟨out, ho, fun c => by rw [hmem, hmem1, aliveNext_congr e c]⟩

set_option maxRecDepth 100000 in
/-- C1 (what fails): the vertical line (MaxInt64,0), (MaxInt64,1), (MaxInt64,2)
has the cell (MaxInt64,1) in it with exactly 2 live neighbours, yet `Next`
returns the empty grid: on these cells `neighbors` overflows and returns 8 zero
cells, so no cell of the line is counted. -/
theorem Next_rule_fails_at_int_limit :
    Next [⟨9223372036854775807, 0⟩, ⟨9223372036854775807, 1⟩, ⟨9223372036854775807, 2⟩] =
        Outcome.ok [] ∧
      liveCount [⟨9223372036854775807, 0⟩, ⟨9223372036854775807, 1⟩, ⟨9223372036854775807, 2⟩]
        ⟨9223372036854775807, 1⟩ = 2 ∧
      (⟨9223372036854775807, 1⟩ : Cell) ∈
        ([⟨9223372036854775807, 0⟩, ⟨9223372036854775807, 1⟩, ⟨9223372036854775807, 2⟩] : Grid) ∧
      liveNeighbors [⟨0, 0⟩] ⟨9223372036854775807, 5⟩ = Outcome.ok 8 ∧
      liveCount [⟨0, 0⟩] ⟨9223372036854775807, 5⟩ = 0 := by
  decide

/-- C1 (amended): for every grid g whose cells have both coordinates strictly
between MinInt64 + 1 and MaxInt64 - 2, `Next g` returns a grid, and every cell c
of the integer plane is in it if and only if either c has exactly 3 live
neighbours in g, or c has exactly 2 live neighbours in g and c is itself in g;
the live-neighbour count is the number of cells adjacent to c (c excluded) that
are in g, and it is what `liveNeighbors` returns on every cell on which
`neighbors` does not overflow.  No restriction to the candidate set is
assumed. -/
theorem Next_game_of_life_rule (g : Grid) (hg : ∀ c ∈ g, InnerCell c) (c : Cell) :
    ∃ out : Grid, Next g = Outcome.ok out ∧
      (c ∈ out ↔ liveCount g c = 3 ∨ (liveCount g c = 2 ∧ c ∈ g)) ∧
      (SafeCell c → liveNeighbors g c = Outcome.ok (liveCount g c : Int)) := by
  obtain ⟨out, ho, _, hmem⟩ := Next_inner g hg
  exact ⟨out, ho, hmem c, liveNeighbors_safe g c⟩

theorem Next_game_of_life_rule_witness :
    (∀ c ∈ ([⟨1, 0⟩, ⟨1, 1⟩, ⟨1, 2⟩] : Grid), InnerCell c) ∧
      ∃ out : Grid, Next [⟨1, 0⟩, ⟨1, 1⟩, ⟨1, 2⟩] = Outcome.ok out ∧ (⟨0, 1⟩ : Cell) ∈ out ∧
        (⟨1, 0⟩ : Cell) ∉ out := by
  obtain ⟨out, h1, h2, _⟩ := Next_game_of_life_rule [⟨1, 0⟩, ⟨1, 1⟩, ⟨1, 2⟩] (by decide) ⟨0, 1⟩
  obtain ⟨out1, h3, h4, _⟩ := Next_game_of_life_rule [⟨1, 0⟩, ⟨1, 1⟩, ⟨1, 2⟩] (by decide) ⟨1, 0⟩
  rw [h1] at h3
  have e : out = out1 := Outcome.ok.inj h3
  subst e
  exact ⟨by decide, out, h1, h2.mpr (by decide), fun hc => absurd (h4.mp hc) (by decide)⟩

set_option maxRecDepth 100000 in
/-- C2 (what fails): for g = (MaxInt64,0), `withNeighbors` returns the two cells
(MaxInt64,0) and (0,0).  The cell (MaxInt64 - 1, 0) is not among them, yet it
is adjacent to the cell of g and has one live neighbour. -/
theorem candidates_miss_at_int_limit :
    withNeighbors [⟨9223372036854775807, 0⟩] =
        Outcome.ok [⟨9223372036854775807, 0⟩, ⟨0, 0⟩] ∧
      (⟨9223372036854775806, 0⟩ : Cell) ∉
        ([⟨9223372036854775807, 0⟩, ⟨0, 0⟩] : Grid) ∧
      Adjacent ⟨9223372036854775807, 0⟩ ⟨9223372036854775806, 0⟩ ∧
      liveCount [⟨9223372036854775807, 0⟩] ⟨9223372036854775806, 0⟩ = 1 := by
  decide

/-- C2 (amended): for every grid g whose cells have both coordinates strictly
between MinInt64 + 1 and MaxInt64 - 2, and every cell c that is not in the grid
that `withNeighbors g` returns: c is neither in g nor adjacent to a cell of g, c
has zero live neighbours in g, c is not in the grid that `Next g` returns, and
the Game-of-Life rule does not make it alive either, so iterating over the
candidate set loses no cell. -/
theorem outside_candidates_dead (g : Grid) (hg : ∀ c ∈ g, InnerCell c) (w : Grid)
    (hw : withNeighbors g = Outcome.ok w) (c : Cell) (h : c ∉ w) :
    (c ∉ g ∧ ∀ d ∈ g, ¬ Adjacent d c) ∧
      liveCount g c = 0 ∧
      (∃ out : Grid, Next g = Outcome.ok out ∧ c ∉ out) ∧
      ¬ (liveCount g c = 3 ∨ (liveCount g c = 2 ∧ c ∈ g)) ∧
      (SafeCell c → liveNeighbors g c = Outcome.ok 0) := by
  obtain ⟨w1, _, hw1, _, hmem⟩ := withNeighbors_safe g (fun c hc => innerCell_safe c (hg c hc))
  rw [hw] at hw1
  have e : w = w1 := Outcome.ok.inj hw1
  subst e
  have hout : c ∉ g ∧ ∀ d ∈ g, ¬ Adjacent d c := by
    rw [hmem, not_or, not_exists] at h
    exact ⟨h.1, fun d hd hadj => h.2 d ⟨hd, hadj⟩⟩
  have h0 : liveCount g c = 0 := liveCount_eq_zero g c hout.2
  obtain ⟨out, ho, _, hrule⟩ := Next_inner g hg
  have hdead : ¬ (liveCount g c = 3 ∨ (liveCount g c = 2 ∧ c ∈ g)) := by
    rw [h0]
    omega
  refine ⟨hout, h0, ⟨out, ho, fun hc => hdead ((hrule c).mp hc)⟩, hdead, ?_⟩
  intro hs
  rw [liveNeighbors_safe g c hs, h0]
  rfl

set_option maxRecDepth 100000 in
theorem outside_candidates_dead_witness :
    (∀ c ∈ ([⟨0, 0⟩, ⟨1, 0⟩, ⟨0, 1⟩] : Grid), InnerCell c) ∧
      (⟨5, 5⟩ : Cell) ∉ ([⟨0, 0⟩, ⟨-1, -1⟩, ⟨0, -1⟩, ⟨1, -1⟩, ⟨-1, 0⟩, ⟨1, 0⟩, ⟨-1, 1⟩, ⟨0, 1⟩,
        ⟨1, 1⟩, ⟨2, -1⟩, ⟨2, 0⟩, ⟨2, 1⟩, ⟨-1, 2⟩, ⟨0, 2⟩, ⟨1, 2⟩] : Grid) ∧
      liveCount [⟨0, 0⟩, ⟨1, 0⟩, ⟨0, 1⟩] ⟨5, 5⟩ = 0 ∧
      liveNeighbors [⟨0, 0⟩, ⟨1, 0⟩, ⟨0, 1⟩] ⟨5, 5⟩ = Outcome.ok 0 :=
  have h := outside_candidates_dead [⟨0, 0⟩, ⟨1, 0⟩, ⟨0, 1⟩] (by decide)
    [⟨0, 0⟩, ⟨-1, -1⟩, ⟨0, -1⟩, ⟨1, -1⟩, ⟨-1, 0⟩, ⟨1, 0⟩, ⟨-1, 1⟩, ⟨0, 1⟩,
      ⟨1, 1⟩, ⟨2, -1⟩, ⟨2, 0⟩, ⟨2, 1⟩, ⟨-1, 2⟩, ⟨0, 2⟩, ⟨1, 2⟩] (by decide) ⟨5, 5⟩ (by decide)
  ⟨by decide, by decide, h.2.1, h.2.2.2.2 (by decide)⟩

theorem Next_within_bounds (g : Grid) (minX maxX minY maxY : Int)
    (hb : ∀ c ∈ g, minX ≤ c.X ∧ c.X ≤ maxX ∧ minY ≤ c.Y ∧ c.Y ≤ maxY) (out : Grid)
    (ho : Next g = Outcome.ok out) (c : Cell) (hc : c ∈ out) :
    minX - 1 ≤ c.X ∧ c.X ≤ maxX + 1 ∧ minY - 1 ≤ c.Y ∧ c.Y ≤ maxY + 1 := by
  obtain ⟨halive, hcand⟩ := Next_ok_mem g out ho c hc
  rcases hcand with hg | ⟨d, _, cells, hcells, hmem⟩
  · have := hb c hg
    omega
  · have hv : ValidCell c := neighbors_valid d cells hcells c hmem
    obtain ⟨e, he, hadj⟩ := aliveNext_adjacent g c (cellSurvives_true g c hv halive).2
    have := hb e he
    obtain ⟨_, hx, hy⟩ := hadj
    rw [abs_le] at hx hy
    omega

/-- C3: for every non-empty grid g whose true component-wise bounds are minX,
maxX, minY, maxY, every cell (x, y) of a grid that `Next g` returns satisfies
minX-1 <= x <= maxX+1 and minY-1 <= y <= maxY+1, also where `neighbors`
overflows; `Next g` does return a grid when the cells of g have both coordinates
strictly between MinInt64 + 1 and MaxInt64 - 2; and `Next` of the empty grid is
the empty grid. -/
theorem Next_in_dilated_bounding_box (g : Grid) (minX maxX minY maxY : Int)
    (_hne : g ≠ []) (hb : TrueBounds g minX maxX minY maxY) :
    (∀ out : Grid, Next g = Outcome.ok out → ∀ c ∈ out,
        minX - 1 ≤ c.X ∧ c.X ≤ maxX + 1 ∧ minY - 1 ≤ c.Y ∧ c.Y ≤ maxY + 1) ∧
      ((∀ c ∈ g, InnerCell c) → ∃ out : Grid, Next g = Outcome.ok out) ∧
      Next [] = Outcome.ok [] := by
  refine ⟨fun out ho c hc => Next_within_bounds g minX maxX minY maxY hb.1 out ho c hc, ?_, rfl⟩
  intro hg
  obtain ⟨out, ho, _⟩ := Next_inner g hg
  exact ⟨out, ho⟩

theorem Next_in_dilated_bounding_box_witness :
    ([⟨1, 0⟩, ⟨1, 1⟩, ⟨1, 2⟩] : Grid) ≠ [] ∧
      TrueBounds [⟨1, 0⟩, ⟨1, 1⟩, ⟨1, 2⟩] 1 1 0 2 ∧
      ∃ out : Grid, Next [⟨1, 0⟩, ⟨1, 1⟩, ⟨1, 2⟩] = Outcome.ok out ∧
        ∀ c ∈ out, 1 - 1 ≤ c.X ∧ c.X ≤ 1 + 1 ∧ 0 - 1 ≤ c.Y ∧ c.Y ≤ 2 + 1 := by
  have h := Next_in_dilated_bounding_box [⟨1, 0⟩, ⟨1, 1⟩, ⟨1, 2⟩] 1 1 0 2 (by decide)
    (by unfold TrueBounds; decide)
  obtain ⟨out, ho⟩ := h.2.1 (by decide)
  exact ⟨by decide, by unfold TrueBounds; decide, out, ho, h.1 out ho⟩

/-! ## Still life and oscillator -/

set_option maxRecDepth 100000 in
theorem Next_block00 :
    Next [⟨0, 0⟩, ⟨1, 0⟩, ⟨0, 1⟩, ⟨1, 1⟩] = Outcome.ok [⟨0, 0⟩, ⟨1, 0⟩, ⟨0, 1⟩, ⟨1, 1⟩] := by
  decide

set_option maxRecDepth 100000 in
theorem Next_block11 :
    Next [⟨1, 1⟩, ⟨2, 1⟩, ⟨1, 2⟩, ⟨2, 2⟩] = Outcome.ok [⟨1, 1⟩, ⟨2, 1⟩, ⟨1, 2⟩, ⟨2, 2⟩] := by
  decide

set_option maxRecDepth 100000 in
theorem Next_vertical :
    Next [⟨1, 0⟩, ⟨1, 1⟩, ⟨1, 2⟩] = Outcome.ok [⟨0, 1⟩, ⟨1, 1⟩, ⟨2, 1⟩] := by
  decide

set_option maxRecDepth 100000 in
theorem Next_horizontal :
    Next [⟨0, 1⟩, ⟨1, 1⟩, ⟨2, 1⟩] = Outcome.ok [⟨1, 0⟩, ⟨1, 1⟩, ⟨1, 2⟩] := by
  decide

/-- C4: `Next` applied to the 2x2 block (0,0),(1,0),(0,1),(1,1), and likewise
to the block (1,1),(2,1),(1,2),(2,2) of the test, returns exactly the same set
of cells, in whatever order the map lists the block: the block is a fixed point
of `Next`. -/
theorem block_is_fixed_point (g : Grid)
    (h : SameCells g [⟨0, 0⟩, ⟨1, 0⟩, ⟨0, 1⟩, ⟨1, 1⟩] ∨
      SameCells g [⟨1, 1⟩, ⟨2, 1⟩, ⟨1, 2⟩, ⟨2, 2⟩]) :
    ∃ out : Grid, Next g = Outcome.ok out ∧ SameCells out g := by
  rcases h with h | h
  · obtain ⟨out, ho, hs⟩ := Next_SameCells h (by decide) _ Next_block00
    exact ⟨out, ho, hs.trans h.symm⟩
  · obtain ⟨out, ho, hs⟩ := Next_SameCells h (by decide) _ Next_block11
    exact ⟨out, ho, hs.trans h.symm⟩

theorem block_is_fixed_point_witness :
    (∃ out : Grid, Next [⟨1, 1⟩, ⟨0, 0⟩, ⟨1, 0⟩, ⟨0, 1⟩] = Outcome.ok out ∧
        SameCells out [⟨1, 1⟩, ⟨0, 0⟩, ⟨1, 0⟩, ⟨0, 1⟩]) ∧
      ∃ out : Grid, Next [⟨1, 1⟩, ⟨2, 1⟩, ⟨1, 2⟩, ⟨2, 2⟩] = Outcome.ok out ∧
        SameCells out [⟨1, 1⟩, ⟨2, 1⟩, ⟨1, 2⟩, ⟨2, 2⟩] :=
  ⟨block_is_fixed_point _ (Or.inl (fun c => by
      simp only [List.mem_cons, List.mem_singleton, List.not_mem_nil, or_false]
      tauto)),
    block_is_fixed_point _ (Or.inr (fun _ => Iff.rfl))⟩

/-- C5: `Next` maps the vertical line (1,0),(1,1),(1,2) to exactly the
horizontal line (0,1),(1,1),(2,1) and maps that horizontal line back to exactly
the vertical line, in whatever order the map lists them; so `Next` applied twice
to the vertical line returns it unchanged (blinker, period 2). -/
theorem blinker_period_two (v h : Grid)
    (hv : SameCells v [⟨1, 0⟩, ⟨1, 1⟩, ⟨1, 2⟩])
    (hh : SameCells h [⟨0, 1⟩, ⟨1, 1⟩, ⟨2, 1⟩]) :
    ∃ v1 h1 v2 : Grid,
      Next v = Outcome.ok v1 ∧ SameCells v1 [⟨0, 1⟩, ⟨1, 1⟩, ⟨2, 1⟩] ∧
      Next h = Outcome.ok h1 ∧ SameCells h1 [⟨1, 0⟩, ⟨1, 1⟩, ⟨1, 2⟩] ∧
      Next v1 = Outcome.ok v2 ∧ SameCells v2 v := by
  obtain ⟨v1, hv1, e1⟩ := Next_SameCells hv (by decide) _ Next_vertical
  obtain ⟨h1, hh1, e2⟩ := Next_SameCells hh (by decide) _ Next_horizontal
  obtain ⟨v2, hv2, e3⟩ := Next_SameCells e1 (by decide) _ Next_horizontal
  exact ⟨v1, h1, v2, hv1, e1, hh1, e2, hv2, e3.trans hv.symm⟩

theorem blinker_period_two_witness :
    ∃ v1 h1 v2 : Grid,
      Next [⟨1, 0⟩, ⟨1, 1⟩, ⟨1, 2⟩] = Outcome.ok v1 ∧
      SameCells v1 [⟨0, 1⟩, ⟨1, 1⟩, ⟨2, 1⟩] ∧
      Next [⟨0, 1⟩, ⟨1, 1⟩, ⟨2, 1⟩] = Outcome.ok h1 ∧
      SameCells h1 [⟨1, 0⟩, ⟨1, 1⟩, ⟨1, 2⟩] ∧
      Next v1 = Outcome.ok v2 ∧ SameCells v2 [⟨1, 0⟩, ⟨1, 1⟩, ⟨1, 2⟩] :=
  blinker_period_two _ _ (fun _ => Iff.rfl) (fun _ => Iff.rfl)

/-! ## Bounds -/

/-- C8: for the empty grid `xyBounds` returns the pair (min, max) = ((0,0), (0,0))
and `maxXY` returns (0,0); both are total functions, so neither fails. -/
theorem bounds_empty :
    xyBounds [] = ((⟨0, 0⟩ : Cell), (⟨0, 0⟩ : Cell)) ∧ maxXY [] = (⟨0, 0⟩ : Cell) :=
  ⟨rfl, rfl⟩

/-! ## Show -/

theorem loopFrom_eq_foldl {σ : Type} (hi : Int) (body : Int → σ → σ) :
    ∀ (fuel : Nat) (i : Int) (s : σ), fuel = (hi + 1 - i).toNat →
      loopFrom hi body fuel i s =
        (List.range fuel).foldl (fun s (k : Nat) => body (i + (k : Int)) s) s := by
  intro fuel
  induction fuel with
  | zero => intro i s _; rfl
  | succ n ih =>
    intro i s h
    have hle : i ≤ hi := by omega
    rw [loopFrom, if_pos hle, ih (i + 1) (body i s) (by omega), List.range_succ_eq_map,
      List.foldl_cons, List.foldl_map]
    simp only [Nat.cast_zero, add_zero, Nat.succ_eq_add_one, Nat.cast_add, Nat.cast_one]
    congr 1
    funext s k
    congr 1
    ring

theorem forLoop_zero_eq_foldl {σ : Type} (hi : Int) (body : Int → σ → σ) (s : σ) :
    forLoop 0 hi body s =
      (List.range (hi + 1).toNat).foldl (fun s (k : Nat) => body (k : Int) s) s := by
  unfold forLoop
  rw [loopFrom_eq_foldl hi body _ 0 s rfl]
  simp only [sub_zero, zero_add]

theorem foldl_append_eq (l : List String) :
    ∀ s : String, l.foldl (fun r t => r ++ t) s = s ++ String.join l := by
  induction l with
  | nil => intro s; simp [String.join]
  | cons a l ih =>
    intro s
    have hj : String.join (a :: l) = a ++ String.join l := by
      show List.foldl (fun r t => r ++ t) "" (a :: l) = _
      rw [List.foldl_cons, ih, String.empty_append]
    rw [List.foldl_cons, ih, hj, String.append_assoc]

theorem join_cons (a : String) (l : List String) : String.join (a :: l) = a ++ String.join l := by
  rw [String.join, List.foldl_cons, foldl_append_eq, String.empty_append]

theorem foldl_append_map {α : Type} (f : α → String) (l : List α) (s : String) :
    l.foldl (fun r k => r ++ f k) s = s ++ String.join (l.map f) := by
  rw [← foldl_append_eq, List.foldl_map]

theorem Show_eq_textBlock (g : Grid) :
    Show g = textBlock g ((maxXY g).X + 1).toNat ((maxXY g).Y + 1).toNat := by
  unfold Show textBlock
  simp only [forLoop_zero_eq_foldl]
  have inner : ∀ (y : Nat) (str : String),
      (List.range ((maxXY g).X + 1).toNat).foldl
        (fun str (x : Nat) =>
          if (⟨(x : Int), (y : Int)⟩ : Cell) ∈ g then str ++ LiveCellRepr
          else str ++ DeadCellRepr) str =
        str ++ String.join ((List.range ((maxXY g).X + 1).toNat).map
          (fun (x : Nat) => glyph g (x : Int) (y : Int))) := by
    intro y str
    rw [← foldl_append_map]
    congr 1
    funext r x
    unfold glyph
    split <;> rfl
  simp only [inner, String.append_assoc]
  rw [foldl_append_map, String.empty_append]

theorem maximum_ge (a b : Int) : a ≤ maximum a b ∧ b ≤ maximum a b := by
  unfold maximum
  split <;> omega

theorem foldl_maxXY_ge (l : List Cell) :
    ∀ acc : Cell,
      acc.X ≤ (l.foldl (fun mx cell => ⟨maximum mx.X cell.X, maximum mx.Y cell.Y⟩) acc).X ∧
      acc.Y ≤ (l.foldl (fun mx cell => ⟨maximum mx.X cell.X, maximum mx.Y cell.Y⟩) acc).Y ∧
      ∀ c ∈ l,
        c.X ≤ (l.foldl (fun mx cell => ⟨maximum mx.X cell.X, maximum mx.Y cell.Y⟩) acc).X ∧
        c.Y ≤ (l.foldl (fun mx cell => ⟨maximum mx.X cell.X, maximum mx.Y cell.Y⟩) acc).Y := by
  induction l with
  | nil => intro acc; simp
  | cons a l ih =>
    intro acc
    rw [List.foldl_cons]
    obtain ⟨h1, h2, h3⟩ := ih ⟨maximum acc.X a.X, maximum acc.Y a.Y⟩
    have mX := maximum_ge acc.X a.X
    have mY := maximum_ge acc.Y a.Y
    simp only at h1 h2
    refine ⟨by omega, by omega, ?_⟩
    intro c hc
    rcases List.mem_cons.mp hc with rfl | hc
    · constructor <;> omega
    · exact h3 c hc

theorem maxXY_nonneg (g : Grid) : 0 ≤ (maxXY g).X ∧ 0 ≤ (maxXY g).Y :=
  ⟨(foldl_maxXY_ge g ⟨0, 0⟩).1, (foldl_maxXY_ge g ⟨0, 0⟩).2.1⟩

theorem le_maxXY (g : Grid) (c : Cell) (h : c ∈ g) :
    c.X ≤ (maxXY g).X ∧ c.Y ≤ (maxXY g).Y :=
  (foldl_maxXY_ge g ⟨0, 0⟩).2.2 c h

/-- C9: for every grid g, with max = `maxXY g`, the text `Show g` is made of
exactly max.Y+1 rows, each row being exactly max.X+1 glyphs followed by a single
newline, and the glyph at row y, column x is `LiveCellRepr` if (x, y) is in g
and `DeadCellRepr` otherwise.  For the grid (0,0),(1,2),(2,2) the rows are
live-dead-dead, dead-dead-dead, dead-live-live. -/
theorem Show_layout (g : Grid) :
    (∃ rows : List (List String),
      (rows.length : Int) = (maxXY g).Y + 1 ∧
      (∀ r ∈ rows, (r.length : Int) = (maxXY g).X + 1) ∧
      (∀ x y : Nat, (x : Int) ≤ (maxXY g).X → (y : Int) ≤ (maxXY g).Y →
        ∃ r, rows[y]? = some r ∧
          r[x]? = some (if (⟨x, y⟩ : Cell) ∈ g then LiveCellRepr else DeadCellRepr)) ∧
      Show g = String.join (rows.map (fun r => String.join r ++ "\n"))) ∧
    Show [⟨0, 0⟩, ⟨1, 2⟩, ⟨2, 2⟩] =
      LiveCellRepr ++ DeadCellRepr ++ DeadCellRepr ++ "\n" ++
      DeadCellRepr ++ DeadCellRepr ++ DeadCellRepr ++ "\n" ++
      DeadCellRepr ++ LiveCellRepr ++ LiveCellRepr ++ "\n" := by
  obtain ⟨hX, hY⟩ := maxXY_nonneg g
  refine ⟨⟨(List.range ((maxXY g).Y + 1).toNat).map (fun (y : Nat) =>
      (List.range ((maxXY g).X + 1).toNat).map (fun (x : Nat) => glyph g (x : Int) (y : Int))),
    ?_, ?_, ?_, ?_⟩, by decide⟩
  · rw [List.length_map, List.length_range]
    omega
  · intro r hr
    rw [List.mem_map] at hr
    obtain ⟨y, _, rfl⟩ := hr
    rw [List.length_map, List.length_range]
    omega
  · intro x y hx hy
    have hy2 : y < ((maxXY g).Y + 1).toNat := by omega
    have hx2 : x < ((maxXY g).X + 1).toNat := by omega
    refine ⟨(List.range ((maxXY g).X + 1).toNat).map
      (fun (x : Nat) => glyph g (x : Int) (y : Int)), ?_, ?_⟩
    · rw [List.getElem?_map, List.getElem?_range hy2]
      rfl
    · rw [List.getElem?_map, List.getElem?_range hx2]
      rfl
  · rw [Show_eq_textBlock, textBlock, List.map_map]
    rfl

/-! ## Counting the glyphs of a rendering -/

theorem liveGlyphs_append (s t : String) :
    liveGlyphs (s ++ t) = liveGlyphs s + liveGlyphs t := by
  simp [liveGlyphs, String.data_append, List.count_append]

theorem liveGlyphs_join (l : List String) :
    liveGlyphs (String.join l) = (l.map liveGlyphs).sum := by
  induction l with
  | nil => rfl
  | cons a l ih => rw [join_cons, liveGlyphs_append, ih, List.map_cons, List.sum_cons]

theorem liveGlyphs_glyph (g : Grid) (x y : Int) :
    liveGlyphs (glyph g x y) = if (⟨x, y⟩ : Cell) ∈ g then 1 else 0 := by
  unfold glyph
  split <;> rfl

theorem sum_map_range (f : Nat → Nat) (n : Nat) :
    ((List.range n).map f).sum = ∑ i in Finset.range n, f i := by
  induction n with
  | zero => rfl
  | succ n ih =>
    rw [List.range_succ, List.map_append, List.sum_append, ih, Finset.sum_range_succ]
    simp

theorem liveGlyphs_textBlock (g : Grid) (w h : Nat) :
    liveGlyphs (textBlock g w h) =
      ((Finset.range h ×ˢ Finset.range w).filter
        (fun p => (⟨(p.2 : Int), (p.1 : Int)⟩ : Cell) ∈ g)).card := by
  unfold textBlock
  rw [liveGlyphs_join, List.map_map, sum_map_range, Finset.card_filter, Finset.sum_product]
  apply Finset.sum_congr rfl
  intro y _
  simp only [Function.comp_apply]
  rw [liveGlyphs_append, liveGlyphs_join, List.map_map, sum_map_range]
  have hnl : liveGlyphs "\n" = 0 := rfl
  rw [hnl, add_zero]
  apply Finset.sum_congr rfl
  intro x _
  simp only [Function.comp_apply]
  rw [liveGlyphs_glyph]

theorem window_card (g : Grid) (w h : Nat) (hnd : g.Nodup)
    (hin : ∀ c ∈ g, 0 ≤ c.X → 0 ≤ c.Y → c.X < w ∧ c.Y < h) :
    ((Finset.range h ×ˢ Finset.range w).filter
        (fun p => (⟨(p.2 : Int), (p.1 : Int)⟩ : Cell) ∈ g)).card =
      (g.filter (fun c => decide (0 ≤ c.X ∧ 0 ≤ c.Y))).length := by
  rw [← List.toFinset_card_of_nodup (hnd.filter _)]
  have hinj : Function.Injective (fun p : Nat × Nat => (⟨(p.2 : Int), (p.1 : Int)⟩ : Cell)) := by
    intro p q hpq
    simp only [Cell.mk.injEq, Nat.cast_inj] at hpq
    exact Prod.ext hpq.2 hpq.1
  rw [← Finset.card_image_of_injective _ hinj]
  congr 1
  ext c
  simp only [Finset.mem_image, Finset.mem_filter, Finset.mem_product, Finset.mem_range,
    List.mem_toFinset, List.mem_filter, decide_eq_true_eq, Prod.exists]
  constructor
  · rintro ⟨y, x, ⟨_, hg⟩, rfl⟩
    exact ⟨hg, by simp⟩
  · rintro ⟨hg, hx, hy⟩
    obtain ⟨hw, hh⟩ := hin c hg hx hy
    refine ⟨c.Y.toNat, c.X.toNat, ⟨⟨by omega, by omega⟩, ?_⟩, ?_⟩
    · rw [Int.toNat_of_nonneg hx, Int.toNat_of_nonneg hy]
      exact hg
    · rw [Int.toNat_of_nonneg hx, Int.toNat_of_nonneg hy]

/-- C10 (what fails): the grid (0,0),(-1,0) has two cells, but its rendering is
the single row of one live glyph: the cell (-1,0) is not drawn. -/
theorem Show_drops_negative_cell :
    ([⟨0, 0⟩, ⟨-1, 0⟩] : Grid).Nodup ∧
      Show [⟨0, 0⟩, ⟨-1, 0⟩] = LiveCellRepr ++ "\n" ∧
      liveGlyphs (Show [⟨0, 0⟩, ⟨-1, 0⟩]) ≠ ([⟨0, 0⟩, ⟨-1, 0⟩] : Grid).length := by
  decide

/-- C10 (amended): `Show` draws the quadrant of non-negative coordinates: for
every grid g (a map, so without duplicate keys), the number of `LiveCellRepr`
glyphs in `Show g` equals the number of cells of g whose coordinates are both
non-negative. -/
theorem Show_draws_nonnegative_cells (g : Grid) (hnd : g.Nodup) :
    liveGlyphs (Show g) = (g.filter (fun c => decide (0 ≤ c.X ∧ 0 ≤ c.Y))).length := by
  rw [Show_eq_textBlock, liveGlyphs_textBlock, window_card g _ _ hnd]
  intro c hc hx hy
  have := le_maxXY g c hc
  omega

theorem Show_draws_nonnegative_cells_witness :
    ([⟨0, 0⟩, ⟨-1, 0⟩] : Grid).Nodup ∧ liveGlyphs (Show [⟨0, 0⟩, ⟨-1, 0⟩]) = 1 :=
  ⟨by decide, Show_draws_nonnegative_cells [⟨0, 0⟩, ⟨-1, 0⟩] (by decide)⟩

/-- C7 (where the code departs from it): on the grid (2,3), all of whose cells
have strictly positive coordinates, `xyBounds` returns min = (0,0) although the
smallest X is 2 and the smallest Y is 3; on the grid (-2,-3) it returns
max = (0,0) although the largest X is -2 and the largest Y is -3. -/
theorem xyBounds_keeps_zero :
    xyBounds [⟨2, 3⟩] = (⟨0, 0⟩, ⟨2, 3⟩) ∧ TrueBounds [⟨2, 3⟩] 2 2 3 3 ∧
      xyBounds [⟨-2, -3⟩] = (⟨-2, -3⟩, ⟨0, 0⟩) ∧ TrueBounds [⟨-2, -3⟩] (-2) (-2) (-3) (-3) := by
  unfold TrueBounds
  decide

/-! ## FromSlice -/

theorem mem_foldl_cells {α : Type} (P : α → Prop) [DecidablePred P] (y : Int)
    (xs : List (Nat × α)) :
    ∀ (acc : Grid) (c : Cell),
      c ∈ xs.foldl (fun grid xv => if P xv.2 then Add grid ⟨(xv.1 : Int), y⟩ else grid) acc ↔
        c ∈ acc ∨ ∃ xv ∈ xs, P xv.2 ∧ c = ⟨(xv.1 : Int), y⟩ := by
  induction xs with
  | nil => intro acc c; simp
  | cons a xs ih =>
    intro acc c
    rw [List.foldl_cons, ih]
    simp only [List.mem_cons, exists_eq_or_imp]
    by_cases hP : P a.2
    · rw [if_pos hP, mem_Add]
      simp only [hP, true_and]
      exact or_assoc
    · rw [if_neg hP]
      simp only [hP, false_and, false_or]

theorem mem_foldl_rows {α β : Type} (P : α → Prop) [DecidablePred P]
    (inner : β → List (Nat × α)) (rows : List (Nat × β)) :
    ∀ (acc : Grid) (c : Cell),
      c ∈ rows.foldl
          (fun grid yr =>
            (inner yr.2).foldl
              (fun grid xv => if P xv.2 then Add grid ⟨(xv.1 : Int), (yr.1 : Int)⟩ else grid)
              grid)
          acc ↔
        c ∈ acc ∨ ∃ yr ∈ rows, ∃ xv ∈ inner yr.2, P xv.2 ∧ c = ⟨(xv.1 : Int), (yr.1 : Int)⟩ := by
  induction rows with
  | nil => intro acc c; simp
  | cons a rows ih =>
    intro acc c
    rw [List.foldl_cons, ih, mem_foldl_cells]
    simp only [List.mem_cons, exists_eq_or_imp]
    exact or_assoc

theorem mem_FromSlice (rows : List (List Int)) (c : Cell) :
    c ∈ FromSlice rows ↔
      ∃ (j : Nat) (row : List Int), rows[j]? = some row ∧
        ∃ (i : Nat) (v : Int), row[i]? = some v ∧ v ≠ 0 ∧ c = ⟨(i : Int), (j : Int)⟩ := by
  unfold FromSlice
  rw [mem_foldl_rows (fun v : Int => v ≠ 0) List.enum]
  simp only [List.not_mem_nil, false_or, List.mem_enum_iff_getElem?, Prod.exists]

theorem mem_FromSlice_iff (rows : List (List Int)) (x y : Int) :
    (⟨x, y⟩ : Cell) ∈ FromSlice rows ↔ NonzeroAt rows x y := by
  rw [mem_FromSlice]
  unfold NonzeroAt
  constructor
  · rintro ⟨j, row, hrow, i, v, hv, hne, hc⟩
    simp only [Cell.mk.injEq] at hc
    obtain ⟨rfl, rfl⟩ := hc
    refine ⟨by omega, by omega, row, ?_, v, ?_, hne⟩
    · simpa using hrow
    · simpa using hv
  · rintro ⟨hy, hx, row, hrow, v, hv, hne⟩
    refine ⟨y.toNat, row, hrow, x.toNat, v, hv, hne, ?_⟩
    rw [Int.toNat_of_nonneg hx, Int.toNat_of_nonneg hy]

theorem FromSlice_eq_nil_iff (rows : List (List Int)) :
    FromSlice rows = [] ↔ ∀ row ∈ rows, ∀ v ∈ row, v = 0 := by
  rw [List.eq_nil_iff_forall_not_mem]
  constructor
  · intro h row hrow v hv
    by_contra hne
    obtain ⟨j, hj⟩ := List.mem_iff_getElem?.mp hrow
    obtain ⟨i, hi⟩ := List.mem_iff_getElem?.mp hv
    exact h ⟨(i : Int), (j : Int)⟩ ((mem_FromSlice rows _).mpr ⟨j, row, hj, i, v, hi, hne, rfl⟩)
  · intro h c hc
    obtain ⟨j, row, hrow, i, v, hv, hne, _⟩ := (mem_FromSlice rows c).mp hc
    exact hne (h row (List.mem_iff_getElem?.mpr ⟨j, hrow⟩) v (List.mem_iff_getElem?.mpr ⟨i, hv⟩))

/-- C11: for every slice of int rows, rectangular or not, and every cell
(x, y): (x, y) is in `FromSlice rows` if and only if 0 <= y < len(rows),
0 <= x < len(rows[y]) and rows[y][x] != 0.  An all-zero matrix gives the empty
grid, and the matrix of `TestFromSlice` gives exactly the cells (0,0), (1,2),
(2,2). -/
theorem FromSlice_spec (rows : List (List Int)) (x y : Int) :
    ((⟨x, y⟩ : Cell) ∈ FromSlice rows ↔
        0 ≤ y ∧ 0 ≤ x ∧
          ∃ row, rows[y.toNat]? = some row ∧ ∃ v, row[x.toNat]? = some v ∧ v ≠ 0) ∧
      ((∀ row ∈ rows, ∀ v ∈ row, v = 0) → FromSlice rows = []) ∧
      FromSlice [[0, 0, 0], [0, 0, 0], [0, 0, 0]] = [] ∧
      SameCells (FromSlice [[1, 0, 0], [0, 0, 0], [0, 1, 1]]) [⟨0, 0⟩, ⟨1, 2⟩, ⟨2, 2⟩] := by
  refine ⟨mem_FromSlice_iff rows x y, (FromSlice_eq_nil_iff rows).mpr, by decide, ?_⟩
  have e : FromSlice [[1, 0, 0], [0, 0, 0], [0, 1, 1]] = [⟨0, 0⟩, ⟨1, 2⟩, ⟨2, 2⟩] := by decide
  rw [e]
  exact fun _ => Iff.rfl

/-- C12 (what fails): the matrix [[1], [0, 1]] has rows of different lengths,
and `FromSlice` returns the grid of its two non-zero entries, not the empty
grid. -/
theorem FromSlice_ragged_not_empty :
    ¬ Rectangular [[1], [0, 1]] ∧
      FromSlice [[1], [0, 1]] = [⟨0, 0⟩, ⟨1, 1⟩] ∧ FromSlice [[1], [0, 1]] ≠ [] := by
  unfold Rectangular
  decide

/-- C12 (amended): `FromSlice` does not look at the shape of the matrix.  For
every non-rectangular matrix it returns, without failing, the grid of the
positions of its non-zero entries; that grid is empty exactly when every entry
is zero. -/
theorem FromSlice_ragged (rows : List (List Int)) (_h : ¬ Rectangular rows) :
    (∀ x y : Int, (⟨x, y⟩ : Cell) ∈ FromSlice rows ↔ NonzeroAt rows x y) ∧
      (FromSlice rows = [] ↔ ∀ row ∈ rows, ∀ v ∈ row, v = 0) :=
  ⟨mem_FromSlice_iff rows, FromSlice_eq_nil_iff rows⟩

theorem FromSlice_ragged_witness :
    ¬ Rectangular [[0], [0, 0]] ∧ FromSlice [[0], [0, 0]] = [] :=
  ⟨by unfold Rectangular; decide,
    (FromSlice_ragged [[0], [0, 0]] (by unfold Rectangular; decide)).2.mpr (by decide)⟩

/-! ## FromString -/

theorem stringsSplit_ne_nil (sep : Char) (l : List Char) : stringsSplit sep l ≠ [] := by
  cases l with
  | nil => simp [stringsSplit]
  | cons c cs =>
    unfold stringsSplit
    split
    · simp
    · split <;> simp

theorem stringsSplit_length_pos (sep : Char) (l : List Char) :
    0 < (stringsSplit sep l).length :=
  List.length_pos.mpr (stringsSplit_ne_nil sep l)

theorem mem_of_mem_stringsSplit (sep : Char) (l : List Char) :
    ∀ row ∈ stringsSplit sep l, ∀ ch ∈ row, ch ∈ l := by
  induction l with
  | nil =>
    intro row hrow ch hch
    simp only [stringsSplit, List.mem_singleton] at hrow
    subst hrow
    exact hch
  | cons c cs ih =>
    intro row hrow ch hch
    unfold stringsSplit at hrow
    split at hrow
    · rcases List.mem_cons.mp hrow with rfl | hrow
      · simp at hch
      · exact List.mem_cons_of_mem _ (ih row hrow ch hch)
    · split at hrow
      · rename_i hnil
        exact absurd hnil (stringsSplit_ne_nil sep cs)
      · rename_i r rs heq
        rcases List.mem_cons.mp hrow with rfl | hrow
        · rcases List.mem_cons.mp hch with rfl | hch
          · exact List.mem_cons_self _ _
          · exact List.mem_cons_of_mem _ (ih r (by rw [heq]; exact List.mem_cons_self _ _) ch hch)
        · exact List.mem_cons_of_mem _
            (ih row (by rw [heq]; exact List.mem_cons_of_mem _ hrow) ch hch)

theorem mem_of_mem_rangeStringFrom (row : List Char) :
    ∀ (i : Nat) (p : Nat × Char), p ∈ rangeStringFrom i row → p.2 ∈ row := by
  induction row with
  | nil => intro i p hp; simp [rangeStringFrom] at hp
  | cons c cs ih =>
    intro i p hp
    simp only [rangeStringFrom, List.mem_cons] at hp
    rcases hp with rfl | hp
    · exact List.mem_cons_self _ _
    · exact List.mem_cons_of_mem _ (ih _ p hp)

theorem FromString_eq (s : String) :
    FromString s =
      some ((stringsSplit '\n' s.data).enum.foldl
        (fun grid yrow =>
          (rangeString yrow.2).foldl
            (fun grid xchar =>
              if xchar.2 = 'x' then Add grid ⟨(xchar.1 : Int), (yrow.1 : Int)⟩ else grid)
            grid)
        []) := by
  have hlen : ¬ (stringsSplit '\n' s.data).length = 0 :=
    Nat.pos_iff_ne_zero.mp (stringsSplit_length_pos '\n' s.data)
  simp only [FromString, hlen, if_false]

theorem mem_FromString (s : String) (g : Grid) (h : FromString s = some g) (c : Cell) :
    c ∈ g ↔
      ∃ (y : Nat) (row : List Char), (stringsSplit '\n' s.data)[y]? = some row ∧
        ∃ x : Nat, (x, 'x') ∈ rangeString row ∧ c = ⟨(x : Int), (y : Int)⟩ := by
  rw [FromString_eq, Option.some.injEq] at h
  subst h
  rw [mem_foldl_rows (fun ch : Char => ch = 'x') rangeString]
  simp only [List.not_mem_nil, false_or, List.mem_enum_iff_getElem?, Prod.exists]
  constructor
  · rintro ⟨y, row, hrow, x, ch, hx, rfl, rfl⟩
    exact ⟨y, row, hrow, x, hx, rfl⟩
  · rintro ⟨y, row, hrow, x, hx, rfl⟩
    exact ⟨y, row, hrow, x, 'x', hx, rfl, rfl⟩

theorem rangeStringFrom_single_byte (row : List Char) (h : ∀ ch ∈ row, ch.utf8Size = 1) :
    ∀ i : Nat, rangeStringFrom i row = row.enumFrom i := by
  induction row with
  | nil => intro i; rfl
  | cons c cs ih =>
    intro i
    rw [rangeStringFrom, h c (List.mem_cons_self _ _),
      ih (fun ch hch => h ch (List.mem_cons_of_mem _ hch)), List.enumFrom_cons]

theorem mem_FromString_single_byte (s : String) (g : Grid) (hg : FromString s = some g)
    (h : ∀ ch ∈ s.data, ch.utf8Size = 1) (x y : Int) :
    (⟨x, y⟩ : Cell) ∈ g ↔
      0 ≤ y ∧ 0 ≤ x ∧
        ∃ row, (stringsSplit '\n' s.data)[y.toNat]? = some row ∧ row[x.toNat]? = some 'x' := by
  rw [mem_FromString s g hg]
  have hrows : ∀ (j : Nat) (row : List Char), (stringsSplit '\n' s.data)[j]? = some row →
      rangeString row = row.enum := by
    intro j row hrow
    exact rangeStringFrom_single_byte row
      (fun ch hch => h ch (mem_of_mem_stringsSplit '\n' s.data row
        (List.mem_iff_getElem?.mpr ⟨j, hrow⟩) ch hch)) 0
  constructor
  · rintro ⟨j, row, hrow, i, hi, hc⟩
    simp only [Cell.mk.injEq] at hc
    obtain ⟨rfl, rfl⟩ := hc
    rw [hrows j row hrow, List.mk_mem_enum_iff_getElem?] at hi
    refine ⟨by omega, by omega, row, ?_, ?_⟩
    · simpa using hrow
    · simpa using hi
  · rintro ⟨hy, hx, row, hrow, hi⟩
    refine ⟨y.toNat, row, hrow, x.toNat, ?_, ?_⟩
    · rw [hrows y.toNat row hrow, List.mk_mem_enum_iff_getElem?]
      exact hi
    · rw [Int.toNat_of_nonneg hx, Int.toNat_of_nonneg hy]

/-- C13 (where the code departs from it): in the one-line string "éx" the
character 'x' is at position 1 counted in characters, after one two-byte
character; `FromString` returns the cell (2, 0), the byte offset of 'x', and not
the cell (1, 0). -/
theorem FromString_uses_byte_offsets :
    "éx".data[1]? = some 'x' ∧ FromString "éx" = some [⟨2, 0⟩] ∧
      (⟨1, 0⟩ : Cell) ∉ [(⟨2, 0⟩ : Cell)] := by
  decide

/-- C14: for every string s that contains no 'x' character, `FromString s`
returns the empty grid and does not fail: splitting at newlines yields at least
one line, so the guard never evaluates `srows[0]` out of range. -/
theorem FromString_without_x (s : String) (h : ∀ ch ∈ s.data, ch ≠ 'x') :
    FromString s = some [] ∧ 0 < (stringsSplit '\n' s.data).length := by
  refine ⟨?_, stringsSplit_length_pos '\n' s.data⟩
  obtain ⟨g, hg⟩ : ∃ g, FromString s = some g := ⟨_, FromString_eq s⟩
  rw [hg, Option.some.injEq, List.eq_nil_iff_forall_not_mem]
  intro c hc
  obtain ⟨y, row, hrow, x, hx, _⟩ := (mem_FromString s g hg c).mp hc
  have hmem : 'x' ∈ row := mem_of_mem_rangeStringFrom row 0 (x, 'x') hx
  exact h 'x' (mem_of_mem_stringsSplit '\n' s.data row
    (List.mem_iff_getElem?.mpr ⟨y, hrow⟩) 'x' hmem) rfl

theorem FromString_without_x_witness :
    FromString "" = some [] ∧ FromString "  \n \t " = some [] ∧
      FromString "...\n...\n..." = some [] :=
  ⟨(FromString_without_x "" (by decide)).1, (FromString_without_x "  \n \t " (by decide)).1,
    (FromString_without_x "...\n...\n..." (by decide)).1⟩

/-- C15 (where the code departs from it): `FromString` splits only at newlines.
On "x..;...;.xx" it returns the cells (0,0), (9,0), (10,0) of a single row,
while the newline-delimited pattern gives (0,0), (1,2), (2,2), the grid that
`TestFromString` expects for both. -/
theorem FromString_semicolon_not_delimiter :
    FromString "x..;...;.xx" = some [⟨0, 0⟩, ⟨9, 0⟩, ⟨10, 0⟩] ∧
      FromString "x..\n...\n.xx" = some [⟨0, 0⟩, ⟨1, 2⟩, ⟨2, 2⟩] := by
  decide

/-! ## The turn loop -/

theorem writesAndNexts_turnEvents (opts : RunConfig) (g : Grid) :
    writesAndNexts (turnEvents opts g) = [Event.write (Show g), Event.next g] := by
  obtain ⟨delay, maxTurns, clearScreen, interactive, spinner⟩ := opts
  cases clearScreen <;> cases interactive <;> cases spinner <;>
    simp [writesAndNexts, turnEvents, List.filter_cons]

theorem renderings_turnEvents (opts : RunConfig) (g : Grid) :
    renderings (turnEvents opts g) = [Show g] := by
  obtain ⟨delay, maxTurns, clearScreen, interactive, spinner⟩ := opts
  cases clearScreen <;> cases interactive <;> cases spinner <;>
    simp [renderings, turnEvents, List.filterMap_cons]

theorem nextCalls_turnEvents (opts : RunConfig) (g : Grid) :
    nextCalls (turnEvents opts g) = [g] := by
  obtain ⟨delay, maxTurns, clearScreen, interactive, spinner⟩ := opts
  cases clearScreen <;> cases interactive <;> cases spinner <;>
    simp [nextCalls, turnEvents, List.filterMap_cons]


theorem NextTurn_eq (flag : Grid → Bool) (grid next : Grid) (opts : RunConfig)
    (out : List Event) (h : Next grid = Outcome.ok next) :
    NextTurn flag grid opts out =
      Outcome.ok ((next, flag grid), out ++ turnEvents opts grid) := by
  obtain ⟨delay, maxTurns, clearScreen, interactive, spinner⟩ := opts
  cases clearScreen <;> cases interactive <;> cases spinner <;>
    simp [NextTurn, turnEvents, h, Outcome.bind]

theorem turnsTrace_succ (opts : RunConfig) (gen : Nat → Grid) (k : Nat) :
    turnsTrace opts gen (k + 1) = turnsTrace opts gen k ++ turnEvents opts (gen k) := by
  simp [turnsTrace, List.range_succ]

theorem writesAndNexts_turnsTrace (opts : RunConfig) (gen : Nat → Grid) (k : Nat) :
    writesAndNexts (turnsTrace opts gen k) =
      ((List.range k).map
        (fun i => [Event.write (Show (gen i)), Event.next (gen i)])).flatten := by
  induction k with
  | zero => rfl
  | succ n ih =>
    rw [turnsTrace_succ, writesAndNexts, List.filter_append]
    change writesAndNexts _ ++ writesAndNexts _ = _
    rw [ih, writesAndNexts_turnEvents]
    simp [List.range_succ]

theorem renderings_turnsTrace (opts : RunConfig) (gen : Nat → Grid) (k : Nat) :
    renderings (turnsTrace opts gen k) = (List.range k).map (fun i => Show (gen i)) := by
  induction k with
  | zero => rfl
  | succ n ih =>
    rw [turnsTrace_succ, renderings, List.filterMap_append]
    change renderings _ ++ renderings _ = _
    rw [ih, renderings_turnEvents]
    simp [List.range_succ]

theorem nextCalls_turnsTrace (opts : RunConfig) (gen : Nat → Grid) (k : Nat) :
    nextCalls (turnsTrace opts gen k) = (List.range k).map gen := by
  induction k with
  | zero => rfl
  | succ n ih =>
    rw [turnsTrace_succ, nextCalls, List.filterMap_append]
    change nextCalls _ ++ nextCalls _ = _
    rw [ih, nextCalls_turnEvents]
    simp [List.range_succ]

theorem whileLoop_exit {σ : Type} (cond : σ → Bool) (body : σ → Outcome σ) (fuel : Nat) (s : σ)
    (h : cond s = false) : whileLoop cond body fuel s = Outcome.ok (s, true) := by
  cases fuel <;> simp [whileLoop, h]

theorem bounded_run (flag : Grid → Bool) (gen : Nat → Grid) (opts : RunConfig) (T : Nat)
    (hTN : (T : Int) ≤ opts.MaxTurns)
    (hnext : ∀ k : Nat, k < T → Next (gen k) = Outcome.ok (gen (k + 1)))
    (hflag : ∀ k : Nat, k + 1 < T → flag (gen k) = true)
    (hstop : (T : Int) = opts.MaxTurns ∨ (0 < T ∧ flag (gen (T - 1)) = false)) :
    ∀ (m k fuel : Nat) (okk : Bool), k + m = T → m ≤ fuel → (k < T → okk = true) →
      (0 < k → okk = flag (gen (k - 1))) →
      ∃ st : RunState,
        whileLoop (boundedCond opts) (boundedBody flag opts) fuel
            ⟨gen k, okk, (k : Int), turnsTrace opts gen k⟩ = Outcome.ok (st, true) ∧
          st.out = turnsTrace opts gen T := by
  intro m
  induction m with
  | zero =>
    intro k fuel okk hk _ _ hprev
    have hkT : k = T := by omega
    subst hkT
    refine ⟨_, whileLoop_exit _ _ fuel _ ?_, rfl⟩
    rcases hstop with h | ⟨hpos, h⟩
    · simp [boundedCond, h]
    · simp [boundedCond, hprev hpos, h]
  | succ m ih =>
    intro k fuel okk hk hfuel hok _
    obtain ⟨f, rfl⟩ : ∃ f, fuel = f + 1 := ⟨fuel - 1, by omega⟩
    have hkT : k < T := by omega
    have hlt : (k : Int) < opts.MaxTurns := by omega
    have hcond : boundedCond opts ⟨gen k, okk, (k : Int), turnsTrace opts gen k⟩ = true := by
      simp [boundedCond, hlt, hok hkT]
    rw [whileLoop, if_pos hcond]
    simp only [boundedBody, NextTurn_eq flag (gen k) (gen (k + 1)) opts _ (hnext k hkT),
      Outcome.bind, ← turnsTrace_succ]
    have hcast : ((k : Int) + 1) = ((k + 1 : Nat) : Int) := by push_cast; rfl
    rw [hcast]
    exact ih (k + 1) f (flag (gen k)) (by omega) (by omega) (fun h => hflag k h)
      (fun _ => by simp)

theorem unbounded_stop (flag : Grid → Bool) (gen : Nat → Grid) (opts : RunConfig) (T : Nat)
    (hnext : ∀ k : Nat, k < T → Next (gen k) = Outcome.ok (gen (k + 1)))
    (hflag : ∀ k : Nat, k + 1 < T → flag (gen k) = true)
    (hstop : 0 < T ∧ flag (gen (T - 1)) = false) :
    ∀ (m k fuel : Nat) (okk : Bool), k + m = T → m ≤ fuel → (k < T → okk = true) →
      (0 < k → okk = flag (gen (k - 1))) →
      ∃ st : RunState,
        whileLoop unboundedCond (unboundedBody flag opts) fuel
            ⟨gen k, okk, 0, turnsTrace opts gen k⟩ = Outcome.ok (st, true) ∧
          st.out = turnsTrace opts gen T := by
  intro m
  induction m with
  | zero =>
    intro k fuel okk hk _ _ hprev
    have hkT : k = T := by omega
    subst hkT
    refine ⟨_, whileLoop_exit _ _ fuel _ ?_, rfl⟩
    simp [unboundedCond, hprev hstop.1, hstop.2]
  | succ m ih =>
    intro k fuel okk hk hfuel hok _
    obtain ⟨f, rfl⟩ : ∃ f, fuel = f + 1 := ⟨fuel - 1, by omega⟩
    have hkT : k < T := by omega
    have hcond : unboundedCond ⟨gen k, okk, 0, turnsTrace opts gen k⟩ = true := by
      simp [unboundedCond, hok hkT]
    rw [whileLoop, if_pos hcond]
    simp only [unboundedBody, NextTurn_eq flag (gen k) (gen (k + 1)) opts _ (hnext k hkT),
      Outcome.bind, ← turnsTrace_succ]
    exact ih (k + 1) f (flag (gen k)) (by omega) (by omega) (fun h => hflag k h)
      (fun _ => by simp)

theorem unbounded_running (flag : Grid → Bool) (gen : Nat → Grid) (opts : RunConfig) :
    ∀ (m k : Nat),
      (∀ j : Nat, k ≤ j → j < k + m → Next (gen j) = Outcome.ok (gen (j + 1)) ∧
        flag (gen j) = true) →
      whileLoop unboundedCond (unboundedBody flag opts) m
          ⟨gen k, true, 0, turnsTrace opts gen k⟩ =
        Outcome.ok (⟨gen (k + m), true, 0, turnsTrace opts gen (k + m)⟩, false) := by
  intro m
  induction m with
  | zero => intro k _; rfl
  | succ m ih =>
    intro k h
    obtain ⟨hn, hf⟩ := h k (le_refl k) (by omega)
    have hcond : unboundedCond ⟨gen k, true, 0, turnsTrace opts gen k⟩ = true := rfl
    rw [whileLoop, if_pos hcond]
    simp only [unboundedBody, NextTurn_eq flag (gen k) (gen (k + 1)) opts _ hn, Outcome.bind,
      ← turnsTrace_succ, hf]
    rw [ih (k + 1) (fun j h1 h2 => h j (by omega) (by omega))]
    have e : k + 1 + m = k + (m + 1) := by omega
    rw [e]

set_option maxRecDepth 100000 in
/-- C16 (what fails): the bounded loop of `Run` is `i < opts.MaxTurns && ok`,
and `ok` is the bool that `NextTurn` passes on from `grid.Next()`.  With
MaxTurns = 2 and a `Next` that reports false, `Run` returns after one turn: one
rendering is written and `Next` is invoked once. -/
theorem Run_bounded_stops_on_flag :
    Run (fun _ => false) 2 [⟨1, 0⟩, ⟨1, 1⟩, ⟨1, 2⟩] ⟨500, 2, false, false, false⟩ =
      Outcome.ok
        ([Event.write (Show [⟨1, 0⟩, ⟨1, 1⟩, ⟨1, 2⟩]), Event.sleep 500,
          Event.next [⟨1, 0⟩, ⟨1, 1⟩, ⟨1, 2⟩]], true) := by
  decide

/-- C16 (amended): for every configuration with MaxTurns = N > 0 and every run
whose turn i is played on the grid `gen i`, starting on `grid`: if T <= N turns
can be played (each `Next` returns the grid of the following turn), the bool of
`Next` is true in every turn before the last of them, and either T = N or that
bool is false in turn T, then `Run` returns after exactly T turns (any fuel of
at least T iterations gives the result).  It writes exactly T renderings and
invokes `Next` exactly T times, the i-th rendering (i = 0..T-1) being the `Show`
of the grid of turn i, and in the trace each rendering write comes before the
`Next` invocation of the same turn, which comes before the write of the next
turn.  In particular `Run` performs exactly N turns when the bool of `Next` is
true in each of the first N-1 turns. -/
theorem Run_bounded_turns (flag : Grid → Bool) (grid : Grid) (gen : Nat → Grid)
    (opts : RunConfig) (T fuel : Nat) (h0 : gen 0 = grid) (hN : 0 < opts.MaxTurns)
    (hT : 0 < T) (hTN : (T : Int) ≤ opts.MaxTurns) (hfuel : T ≤ fuel)
    (hnext : ∀ k : Nat, k < T → Next (gen k) = Outcome.ok (gen (k + 1)))
    (hflag : ∀ k : Nat, k + 1 < T → flag (gen k) = true)
    (hstop : (T : Int) = opts.MaxTurns ∨ flag (gen (T - 1)) = false) :
    ∃ out : List Event, Run flag fuel grid opts = Outcome.ok (out, true) ∧
      (renderings out).length = T ∧
      (nextCalls out).length = T ∧
      renderings out = (List.range T).map (fun i => Show (gen i)) ∧
      nextCalls out = (List.range T).map gen ∧
      writesAndNexts out =
        ((List.range T).map
          (fun i => [Event.write (Show (gen i)), Event.next (gen i)])).flatten := by
  have hstop1 : (T : Int) = opts.MaxTurns ∨ (0 < T ∧ flag (gen (T - 1)) = false) :=
    hstop.imp id (fun h => ⟨hT, h⟩)
  obtain ⟨st, hst, hout⟩ := bounded_run flag gen opts T hTN hnext hflag hstop1 T 0 fuel true
    (by omega) hfuel (fun _ => rfl) (fun h => absurd h (lt_irrefl 0))
  have hgt : opts.MaxTurns > 0 := hN
  have hrun : Run flag fuel grid opts = Outcome.ok (turnsTrace opts gen T, true) := by
    rw [Run, if_pos hgt, ← h0]
    have hinit : runInit (gen 0) = ⟨gen 0, true, ((0 : Nat) : Int), turnsTrace opts gen 0⟩ := rfl
    rw [hinit, hst, ← hout]
    rfl
  refine ⟨_, hrun, ?_, ?_, renderings_turnsTrace _ _ _, nextCalls_turnsTrace _ _ _,
    writesAndNexts_turnsTrace _ _ _⟩
  · rw [renderings_turnsTrace, List.length_map, List.length_range]
  · rw [nextCalls_turnsTrace, List.length_map, List.length_range]

theorem Run_bounded_turns_witness :
    ∃ out : List Event,
      Run (fun _ => true) 3 [⟨0, 0⟩, ⟨1, 0⟩, ⟨0, 1⟩, ⟨1, 1⟩] ⟨500, 3, false, false, false⟩ =
        Outcome.ok (out, true) ∧
      (renderings out).length = 3 ∧ (nextCalls out).length = 3 := by
  obtain ⟨out, h1, h2, h3, _⟩ :=
    Run_bounded_turns (fun _ => true) [⟨0, 0⟩, ⟨1, 0⟩, ⟨0, 1⟩, ⟨1, 1⟩]
      (fun _ => [⟨0, 0⟩, ⟨1, 0⟩, ⟨0, 1⟩, ⟨1, 1⟩]) ⟨500, 3, false, false, false⟩ 3 3 rfl
      (by decide) (by decide) (by decide) (le_refl 3) (fun _ _ => Next_block00)
      (fun _ _ => rfl) (Or.inl (by decide))
  exact ⟨out, h1, h2, h3⟩

set_option maxRecDepth 100000 in
/-- C17 (what fails): the unbounded loop of `Run` is `for ok`, and `ok` is the
bool that `NextTurn` passes on from `grid.Next()`.  With MaxTurns = 0 and a
`Next` that reports false, `Run` has returned after one turn. -/
theorem Run_unbounded_stops_on_flag :
    Run (fun _ => false) 3 [⟨1, 0⟩, ⟨1, 1⟩, ⟨1, 2⟩] ⟨500, 0, false, false, false⟩ =
      Outcome.ok
        ([Event.write (Show [⟨1, 0⟩, ⟨1, 1⟩, ⟨1, 2⟩]), Event.sleep 500,
          Event.next [⟨1, 0⟩, ⟨1, 1⟩, ⟨1, 2⟩]], true) := by
  decide

/-- C17 (amended): for every configuration with MaxTurns <= 0, zero as well as
negative, and every run whose turn i is played on the grid `gen i`, starting on
`grid`, `Run` stays in its loop as long as every `Next` returns with its bool
true: for every k, if that holds in the first k turns, then after k iterations
`Run` has not returned and has executed exactly k turns, turn i appending the
rendering of the grid of turn i followed by the `Next` invocation on it; nothing
depends on the grid being empty or repeating.  `Run` returns after the first
turn whose `Next` reports false. -/
theorem Run_unbounded (flag : Grid → Bool) (grid : Grid) (gen : Nat → Grid)
    (opts : RunConfig) (h0 : gen 0 = grid) (h : opts.MaxTurns ≤ 0) :
    (∀ k : Nat,
        (∀ j : Nat, j < k → Next (gen j) = Outcome.ok (gen (j + 1)) ∧ flag (gen j) = true) →
        ∃ out : List Event, Run flag k grid opts = Outcome.ok (out, false) ∧
          renderings out = (List.range k).map (fun i => Show (gen i)) ∧
          nextCalls out = (List.range k).map gen ∧
          writesAndNexts out =
            ((List.range k).map
              (fun i => [Event.write (Show (gen i)), Event.next (gen i)])).flatten) ∧
      (∀ T fuel : Nat, 0 < T → T ≤ fuel →
        (∀ j : Nat, j < T → Next (gen j) = Outcome.ok (gen (j + 1))) →
        (∀ j : Nat, j + 1 < T → flag (gen j) = true) → flag (gen (T - 1)) = false →
        ∃ out : List Event, Run flag fuel grid opts = Outcome.ok (out, true) ∧
          renderings out = (List.range T).map (fun i => Show (gen i)) ∧
          nextCalls out = (List.range T).map gen) := by
  have hgt : ¬ opts.MaxTurns > 0 := by omega
  have hinit : runInit (gen 0) = ⟨gen 0, true, 0, turnsTrace opts gen 0⟩ := rfl
  constructor
  · intro k hk
    refine ⟨turnsTrace opts gen k, ?_, renderings_turnsTrace _ _ _, nextCalls_turnsTrace _ _ _,
      writesAndNexts_turnsTrace _ _ _⟩
    rw [Run, if_neg hgt, ← h0, hinit,
      unbounded_running flag gen opts k 0 (fun j _ hj => hk j (by omega))]
    simp [Outcome.bind]
  · intro T fuel hT hfuel hnext hflag hstop
    obtain ⟨st, hst, hout⟩ := unbounded_stop flag gen opts T hnext hflag ⟨hT, hstop⟩ T 0 fuel
      true (by omega) hfuel (fun _ => rfl) (fun h => absurd h (lt_irrefl 0))
    refine ⟨turnsTrace opts gen T, ?_, renderings_turnsTrace _ _ _, nextCalls_turnsTrace _ _ _⟩
    rw [Run, if_neg hgt, ← h0, hinit, hst, ← hout]
    rfl

theorem Run_unbounded_witness :
    (∃ out : List Event,
        Run (fun _ => true) 4 [⟨0, 0⟩, ⟨1, 0⟩, ⟨0, 1⟩, ⟨1, 1⟩] ⟨500, 0, false, false, false⟩ =
          Outcome.ok (out, false) ∧
        nextCalls out = (List.range 4).map (fun _ => [⟨0, 0⟩, ⟨1, 0⟩, ⟨0, 1⟩, ⟨1, 1⟩])) ∧
      ∃ out : List Event,
        Run (fun _ => true) 2 [] ⟨500, -1, true, true, true⟩ = Outcome.ok (out, false) ∧
        nextCalls out = (List.range 2).map (fun _ => []) := by
  obtain ⟨out, h1, _, h3, _⟩ :=
    (Run_unbounded (fun _ => true) [⟨0, 0⟩, ⟨1, 0⟩, ⟨0, 1⟩, ⟨1, 1⟩]
      (fun _ => [⟨0, 0⟩, ⟨1, 0⟩, ⟨0, 1⟩, ⟨1, 1⟩]) ⟨500, 0, false, false, false⟩ rfl
      (by decide)).1 4 (fun _ _ => ⟨Next_block00, rfl⟩)
  obtain ⟨out1, k1, _, k3, _⟩ :=
    (Run_unbounded (fun _ => true) [] (fun _ => []) ⟨500, -1, true, true, true⟩ rfl
      (by decide)).1 2 (fun _ _ => ⟨rfl, rfl⟩)
  exact ⟨⟨out, h1, h3⟩, ⟨out1, k1, k3⟩⟩

/-! ## The candidate set, translation, small grids -/

set_option maxRecDepth 100000 in
theorem withNeighbors_test_grid :
    withNeighbors [⟨0, 0⟩, ⟨1, 1⟩] =
      Outcome.ok [⟨0, 0⟩, ⟨-1, -1⟩, ⟨0, -1⟩, ⟨1, -1⟩, ⟨-1, 0⟩, ⟨1, 0⟩, ⟨-1, 1⟩, ⟨0, 1⟩, ⟨1, 1⟩,
        ⟨2, 0⟩, ⟨2, 1⟩, ⟨0, 2⟩, ⟨1, 2⟩, ⟨2, 2⟩] := by
  decide

theorem withNeighbors_SameCells {g h : Grid} (e : SameCells g h) (hh : ∀ c ∈ h, SafeCell c)
    (w wh : Grid) (hw : withNeighbors g = Outcome.ok w) (hwh : withNeighbors h = Outcome.ok wh) :
    SameCells w wh := by
  obtain ⟨w1, _, hw1, _, hmem⟩ := withNeighbors_safe g (fun c hc => hh c ((e c).mp hc))
  obtain ⟨w2, _, hw2, _, hmem2⟩ := withNeighbors_safe h hh
  rw [hw] at hw1
  rw [hwh] at hw2
  have e1 : w = w1 := Outcome.ok.inj hw1
  have e2 : wh = w2 := Outcome.ok.inj hw2
  subst e1
  subst e2
  intro d
  rw [hmem, hmem2, e d]
  constructor
  · rintro (hd | ⟨c, hc, hadj⟩)
    · exact Or.inl hd
    · exact Or.inr ⟨c, (e c).mp hc, hadj⟩
  · rintro (hd | ⟨c, hc, hadj⟩)
    · exact Or.inl hd
    · exact Or.inr ⟨c, (e c).mpr hc, hadj⟩

set_option maxRecDepth 100000 in
/-- C18 (what fails): for g = (MaxInt64,0) the call `neighbors` overflows and
returns 8 zero cells, so `withNeighbors` returns the two cells (MaxInt64,0) and
(0,0): it holds (0,0), which is neither in g nor adjacent to a cell of g, and it
misses (MaxInt64 - 1, 0), which is adjacent to the cell of g. -/
theorem withNeighbors_at_int_limit :
    withNeighbors [⟨9223372036854775807, 0⟩] =
        Outcome.ok [⟨9223372036854775807, 0⟩, ⟨0, 0⟩] ∧
      (⟨0, 0⟩ : Cell) ∉ ([⟨9223372036854775807, 0⟩] : Grid) ∧
      ¬ Adjacent ⟨9223372036854775807, 0⟩ ⟨0, 0⟩ ∧
      Adjacent ⟨9223372036854775807, 0⟩ ⟨9223372036854775806, 0⟩ ∧
      (⟨9223372036854775806, 0⟩ : Cell) ∉ ([⟨9223372036854775807, 0⟩, ⟨0, 0⟩] : Grid) := by
  decide

/-- C18 (amended): for every grid g whose cells have both coordinates strictly
between MinInt64 and MaxInt64 - 1, `withNeighbors g` returns exactly the union
of g with the 8-neighbourhoods of all cells of g: a cell d is in the result if
and only if d is in g or d is adjacent to some cell of g.  The result is a map
(no duplicate keys), and when the loop ends the receiver is still g: g is left
unchanged.  For g = (0,0),(1,1), in either order, the result is exactly the 14
cells listed in `TestGrid_withNeighbors`. -/
theorem withNeighbors_spec (g : Grid) (hg : ∀ c ∈ g, SafeCell c) (d : Cell) :
    ∃ w : Grid,
      withNeighborsRun g = Outcome.ok (g, w) ∧
      withNeighbors g = Outcome.ok w ∧
      (d ∈ w ↔ d ∈ g ∨ ∃ c ∈ g, Adjacent c d) ∧
      w.Nodup ∧
      (SameCells g [⟨0, 0⟩, ⟨1, 1⟩] →
        w.length = 14 ∧
        SameCells w
          [⟨-1, -1⟩, ⟨0, -1⟩, ⟨1, -1⟩, ⟨-1, 0⟩, ⟨0, 0⟩, ⟨1, 0⟩, ⟨2, 0⟩, ⟨-1, 1⟩, ⟨0, 1⟩,
            ⟨1, 1⟩, ⟨2, 1⟩, ⟨0, 2⟩, ⟨1, 2⟩, ⟨2, 2⟩]) := by
  obtain ⟨w, hrun, hw, hnd, hmem⟩ := withNeighbors_safe g hg
  refine ⟨w, hrun, hw, hmem d, hnd, ?_⟩
  intro e
  have hs := withNeighbors_SameCells e (by decide) w _ hw withNeighbors_test_grid
  have h1 : ∀ c ∈ ([⟨0, 0⟩, ⟨-1, -1⟩, ⟨0, -1⟩, ⟨1, -1⟩, ⟨-1, 0⟩, ⟨1, 0⟩, ⟨-1, 1⟩, ⟨0, 1⟩,
      ⟨1, 1⟩, ⟨2, 0⟩, ⟨2, 1⟩, ⟨0, 2⟩, ⟨1, 2⟩, ⟨2, 2⟩] : Grid),
      c ∈ ([⟨-1, -1⟩, ⟨0, -1⟩, ⟨1, -1⟩, ⟨-1, 0⟩, ⟨0, 0⟩, ⟨1, 0⟩, ⟨2, 0⟩, ⟨-1, 1⟩, ⟨0, 1⟩,
        ⟨1, 1⟩, ⟨2, 1⟩, ⟨0, 2⟩, ⟨1, 2⟩, ⟨2, 2⟩] : Grid) := by decide
  have h2 : ∀ c ∈ ([⟨-1, -1⟩, ⟨0, -1⟩, ⟨1, -1⟩, ⟨-1, 0⟩, ⟨0, 0⟩, ⟨1, 0⟩, ⟨2, 0⟩, ⟨-1, 1⟩,
      ⟨0, 1⟩, ⟨1, 1⟩, ⟨2, 1⟩, ⟨0, 2⟩, ⟨1, 2⟩, ⟨2, 2⟩] : Grid),
      c ∈ ([⟨0, 0⟩, ⟨-1, -1⟩, ⟨0, -1⟩, ⟨1, -1⟩, ⟨-1, 0⟩, ⟨1, 0⟩, ⟨-1, 1⟩, ⟨0, 1⟩,
        ⟨1, 1⟩, ⟨2, 0⟩, ⟨2, 1⟩, ⟨0, 2⟩, ⟨1, 2⟩, ⟨2, 2⟩] : Grid) := by decide
  have hsame : SameCells w
      [⟨-1, -1⟩, ⟨0, -1⟩, ⟨1, -1⟩, ⟨-1, 0⟩, ⟨0, 0⟩, ⟨1, 0⟩, ⟨2, 0⟩, ⟨-1, 1⟩, ⟨0, 1⟩,
        ⟨1, 1⟩, ⟨2, 1⟩, ⟨0, 2⟩, ⟨1, 2⟩, ⟨2, 2⟩] :=
    hs.trans (fun c => ⟨h1 c, h2 c⟩)
  refine ⟨?_, hsame⟩
  have hperm : List.Perm w
      [⟨-1, -1⟩, ⟨0, -1⟩, ⟨1, -1⟩, ⟨-1, 0⟩, ⟨0, 0⟩, ⟨1, 0⟩, ⟨2, 0⟩, ⟨-1, 1⟩, ⟨0, 1⟩,
        ⟨1, 1⟩, ⟨2, 1⟩, ⟨0, 2⟩, ⟨1, 2⟩, ⟨2, 2⟩] :=
    (List.perm_ext_iff_of_nodup hnd (by decide)).mpr hsame
  rw [hperm.length_eq]
  rfl

theorem withNeighbors_spec_witness :
    (∀ c ∈ ([⟨1, 1⟩, ⟨0, 0⟩] : Grid), SafeCell c) ∧
      ∃ w : Grid, withNeighbors [⟨1, 1⟩, ⟨0, 0⟩] = Outcome.ok w ∧ w.length = 14 ∧
        (⟨2, 2⟩ : Cell) ∈ w := by
  obtain ⟨w, _, h2, h3, _, h5⟩ := withNeighbors_spec [⟨1, 1⟩, ⟨0, 0⟩] (by decide) ⟨2, 2⟩
  refine ⟨by decide, w, h2, (h5 ?_).1, h3.mpr (Or.inr ⟨⟨1, 1⟩, by decide, by decide⟩)⟩
  intro c
  simp only [List.mem_cons, List.mem_singleton, List.not_mem_nil, or_false]
  tauto

theorem adjacent_translateCell (dx dy : Int) (c d : Cell) :
    Adjacent (translateCell dx dy c) (translateCell dx dy d) ↔ Adjacent c d := by
  cases c with
  | mk cx cy =>
    cases d with
    | mk u v =>
      simp only [Adjacent, translateCell, ne_eq, Cell.mk.injEq, add_left_inj,
        add_sub_add_right_eq_sub]

theorem translateCell_injective (dx dy : Int) : Function.Injective (translateCell dx dy) := by
  intro a b h
  cases a with
  | mk ax ay =>
    cases b with
    | mk bx b_y =>
      simp only [translateCell, Cell.mk.injEq, add_left_inj] at h
      rw [h.1, h.2]

theorem liveCount_translate (dx dy : Int) (g : Grid) (c : Cell) :
    liveCount (translate dx dy g) (translateCell dx dy c) = liveCount g c := by
  unfold liveCount translate
  have himg : (g.map (translateCell dx dy)).toFinset = g.toFinset.image (translateCell dx dy) := by
    ext d
    simp only [List.mem_toFinset, List.mem_map, Finset.mem_image]
  rw [himg, Finset.filter_image]
  simp only [adjacent_translateCell]
  exact Finset.card_image_of_injective _ (translateCell_injective dx dy)

theorem mem_translate (dx dy : Int) (g : Grid) (c : Cell) :
    translateCell dx dy c ∈ translate dx dy g ↔ c ∈ g :=
  List.mem_map_of_injective (translateCell_injective dx dy)

set_option maxRecDepth 100000 in
/-- C19 (what fails): the vertical line (1,0),(1,1),(1,2) shifted by
(MaxInt64 - 1, 0) lies at x = MaxInt64, where `neighbors` overflows: `Next` of
the shifted line is the empty grid, while `Next` of the line is the three cells
(0,1),(1,1),(2,1), whose shift is not empty. -/
theorem Next_translation_fails_at_int_limit :
    Next (translate 9223372036854775806 0 [⟨1, 0⟩, ⟨1, 1⟩, ⟨1, 2⟩]) = Outcome.ok [] ∧
      Next [⟨1, 0⟩, ⟨1, 1⟩, ⟨1, 2⟩] = Outcome.ok [⟨0, 1⟩, ⟨1, 1⟩, ⟨2, 1⟩] ∧
      translate 9223372036854775806 0 [⟨0, 1⟩, ⟨1, 1⟩, ⟨2, 1⟩] ≠ [] := by
  decide

/-- C19 (amended): `Next` commutes with translation away from the limits of
Go's `int`: for every grid g and every integer offset (dx, dy) such that the
cells of g and the cells of g shifted by (dx, dy) all have both coordinates
strictly between MinInt64 + 1 and MaxInt64 - 2, `Next` returns on both grids,
and `Next` of the shifted grid holds exactly the cells of `Next g` shifted by
(dx, dy). -/
theorem Next_commutes_with_translation (g : Grid) (dx dy : Int)
    (hg : ∀ c ∈ g, InnerCell c) (hs : ∀ c ∈ translate dx dy g, InnerCell c) :
    ∃ out outT : Grid, Next g = Outcome.ok out ∧ Next (translate dx dy g) = Outcome.ok outT ∧
      SameCells outT (translate dx dy out) := by
  obtain ⟨out, ho, _, hmem⟩ := Next_inner g hg
  obtain ⟨outT, hoT, _, hmemT⟩ := Next_inner (translate dx dy g) hs
  refine ⟨out, outT, ho, hoT, ?_⟩
  intro c
  have hc : c = translateCell dx dy ⟨c.X - dx, c.Y - dy⟩ := by
    cases c with
    | mk x y => simp [translateCell]
  rw [hc, hmemT, mem_translate, hmem]
  unfold AliveNext
  rw [liveCount_translate, mem_translate]

theorem Next_commutes_with_translation_witness :
    ∃ out outT : Grid, Next [⟨1, 0⟩, ⟨1, 1⟩, ⟨1, 2⟩] = Outcome.ok out ∧
      Next (translate 5 (-7) [⟨1, 0⟩, ⟨1, 1⟩, ⟨1, 2⟩]) = Outcome.ok outT ∧
      SameCells outT (translate 5 (-7) out) :=
  Next_commutes_with_translation [⟨1, 0⟩, ⟨1, 1⟩, ⟨1, 2⟩] 5 (-7) (by decide) (by decide)

set_option maxRecDepth 100000 in
/-- C20 (what fails): the grid of the single cell (MaxInt64 - 1, 0) has fewer
than 3 live cells, but `Next` does not return the empty grid on it: `neighbors`
overflows on its cell and panics on the ninth write. -/
theorem Next_of_small_grid_at_int_limit :
    ([⟨9223372036854775806, 0⟩] : Grid).toFinset.card < 3 ∧
      Next [⟨9223372036854775806, 0⟩] = Outcome.crash := by
  decide

/-- C20 (amended): for every grid g with fewer than 3 live cells (fewer than 3
distinct cells; the empty grid included) whose cells have both coordinates
strictly between MinInt64 + 1 and MaxInt64 - 2, `Next g` returns the empty grid:
no cell is born and none survives. -/
theorem Next_of_small_grid (g : Grid) (hg : ∀ c ∈ g, InnerCell c)
    (h : g.toFinset.card < 3) : Next g = Outcome.ok [] := by
  obtain ⟨out, ho, _, hmem⟩ := Next_inner g hg
  have hnil : out = [] := by
    rw [List.eq_nil_iff_forall_not_mem]
    intro c hc
    have hrule := (hmem c).mp hc
    unfold AliveNext liveCount at hrule
    have hsub : g.toFinset.filter (fun d => Adjacent c d) ⊆ g.toFinset :=
      Finset.filter_subset _ _
    rcases hrule with h3 | ⟨h2, hcg⟩
    · have := Finset.card_le_card hsub
      omega
    · have hnot : c ∉ g.toFinset.filter (fun d => Adjacent c d) := by
        rw [Finset.mem_filter]
        exact fun hm => hm.2.1 rfl
      have hins : insert c (g.toFinset.filter (fun d => Adjacent c d)) ⊆ g.toFinset := by
        intro d hd
        rcases Finset.mem_insert.mp hd with rfl | hd
        · exact List.mem_toFinset.mpr hcg
        · exact hsub hd
      have := Finset.card_le_card hins
      rw [Finset.card_insert_of_not_mem hnot] at this
      omega
  rw [ho, hnil]

theorem Next_of_small_grid_witness :
    Next [] = Outcome.ok [] ∧ Next [⟨0, 0⟩] = Outcome.ok [] ∧
      Next [⟨0, 0⟩, ⟨1, 0⟩] = Outcome.ok [] :=
  ⟨Next_of_small_grid [] (by decide) (by decide),
    Next_of_small_grid [⟨0, 0⟩] (by decide) (by decide),
    Next_of_small_grid [⟨0, 0⟩, ⟨1, 0⟩] (by decide) (by decide)⟩

end Conway
